import Mathlib

/-!
Formal model of the 2D software rasterizer in src_c/draw.c (pygame's draw
module), together with proofs about its pixel-level behaviour.

Modelling conventions:

* A surface is modelled at pixel granularity: the byte buffer addressed by
  pitch and BytesPerPixel in the C source is abstracted to a function
  (x, y) to stored 32-bit color value.  All four BytesPerPixel branches of
  set_at store the (possibly narrowed) color at pixel (x, y); the byte
  layout itself is memory layout and outside the shallow embedding.
* C int arithmetic is modelled by unbounded Int; INT_MAX / INT_MIN
  sentinels of the bounding-box accumulator are the concrete 32-bit
  values.  C division truncates toward zero, which is Int.div.
* Loops are modelled by structural recursion on a fuel parameter that is
  provably (or generously) larger than the number of iterations the C
  loop performs.  Where a theorem depends on the loop completing, the
  loop returns an Option and the proof shows the fuel suffices.
* Colors are Nat values; SDL_GetRGBA / SDL_MapRGBA (external SDL calls,
  not code of this repository) are modelled for a 32-bit RGBA8888 format
  with 8-bit channels, which is lossless and representative.
* float brightness in get_antialiased_color is modelled as an exact
  rational; the C cast (Uint8)(...) of a nonnegative value truncates,
  i.e. takes the floor.
-/

namespace DrawC

/-- Value of INT_MAX used to initialize the drawn_area accumulator. -/
def intMax : Int := 2147483647

/-- Value of INT_MIN used to initialize the drawn_area accumulator. -/
def intMin : Int := -2147483648

/-- Target surface: clip rectangle plus pixel contents.  Width/height and
pitch are absorbed into the pixel function; the clip rectangle is assumed
already intersected with the surface bounds (SDL maintains that). -/
structure Surf where
  clipX : Int
  clipY : Int
  clipW : Int
  clipH : Int
  pixels : Int → Int → Nat

/-- Bounding box accumulator: the four ints of drawn_area. -/
structure Area where
  minx : Int
  miny : Int
  maxx : Int
  maxy : Int
deriving DecidableEq

/-- Initial drawn_area value: int drawn_area[4] = INT_MAX, INT_MAX, INT_MIN, INT_MIN. -/
def area0 : Area := ⟨intMax, intMax, intMin, intMin⟩

/-- Returned rectangle (x, y, w, h). -/
structure Rect where
  x : Int
  y : Int
  w : Int
  h : Int
deriving DecidableEq

/-- add_pixel_to_drawn_list from draw.c: running min/max update. -/
def add_pixel_to_drawn_list (x y : Int) (pts : Area) : Area :=
  { minx := if x < pts.minx then x else pts.minx
    miny := if y < pts.miny then y else pts.miny
    maxx := if x > pts.maxx then x else pts.maxx
    maxy := if y > pts.maxy then y else pts.maxy }

/-- Clip test of set_at (and of the blend branch of get_antialiased_color):
true iff the pixel is rejected. -/
def clipMiss (s : Surf) (x y : Int) : Prop :=
  x < s.clipX ∨ x ≥ s.clipX + s.clipW ∨ y < s.clipY ∨ y ≥ s.clipY + s.clipH

instance (s : Surf) (x y : Int) : Decidable (clipMiss s x y) := by
  unfold clipMiss; infer_instance

/-- set_at from draw.c: reject pixels outside the clip rectangle (returning
0 and leaving everything untouched), otherwise store the color at (x, y),
record the pixel in the drawn_area accumulator and return 1. -/
def set_at (s : Surf) (x y : Int) (color : Nat) (drawn_area : Area) :
    Surf × Area × Int :=
  if clipMiss s x y then
    (s, drawn_area, 0)
  else
    ({ s with pixels := fun a b => if a = x ∧ b = y then color else s.pixels a b },
      add_pixel_to_drawn_list x y drawn_area, 1)

/-- Folding set_at over a list of pixel coordinates: this is how every
drawing routine in draw.c touches the surface (all stores go through
set_at, whose return value the rasterizers ignore). -/
def applyWrites (color : Nat) : Surf → Area → List (Int × Int) → Surf × Area
  | s, da, [] => (s, da)
  | s, da, p :: rest =>
      applyWrites color (set_at s p.1 p.2 color da).1 (set_at s p.1 p.2 color da).2.1 rest

/-- Boolean in-clip test, used to single out the writes that actually land. -/
def insideClip (s : Surf) (p : Int × Int) : Bool :=
  decide (s.clipX ≤ p.1 ∧ p.1 < s.clipX + s.clipW ∧
    s.clipY ≤ p.2 ∧ p.2 < s.clipY + s.clipH)

/-- Pixels of an emission list that land inside the clip rectangle, i.e.
that are actually written. -/
def writtenPixels (s : Surf) (l : List (Int × Int)) : List (Int × Int) :=
  l.filter (insideClip s)

/-- Assembly of the returned rect from the drawn_area accumulator, shared
verbatim by every primitive in draw.c: non-sentinel accumulator gives
(minx, miny, maxx - minx + 1, maxy - miny + 1), otherwise a zero-size
rect at the primitive's anchor. -/
def assembleRect (da : Area) (ax ay : Int) : Rect :=
  if da.minx ≠ intMax ∧ da.miny ≠ intMax ∧ da.maxx ≠ intMin ∧ da.maxy ≠ intMin then
    ⟨da.minx, da.miny, da.maxx - da.minx + 1, da.maxy - da.miny + 1⟩
  else
    ⟨ax, ay, 0, 0⟩

/-! ### The Bresenham line rasterizer (draw_line) -/

/-- Loop of the general case of draw_line. State is (x, y, err); the loop
runs while (x, y) differs from (x2, y2), emitting the current pixel and
stepping x when err is greater than -dx and y when err is less than dy
(both tests against the err value read at the top of the iteration).
Returns none if the fuel runs out before the endpoint is reached. -/
def bresLoop (x2 y2 sx sy dx dy : Int) :
    Nat → Int → Int → Int → Option (List (Int × Int))
  | 0, _, _, _ => none
  | n + 1, x, y, err =>
      if x = x2 ∧ y = y2 then
        some [(x2, y2)]
      else
        (bresLoop x2 y2 sx sy dx dy n
            (if err > -dx then x + sx else x)
            (if err < dy then y + sy else y)
            ((if err < dy then (if err > -dx then err - dy else err) + dx
              else (if err > -dx then err - dy else err)))).map
          (fun l => (x, y) :: l)

/-- Fuel that provably suffices for the general Bresenham loop. -/
def bresFuel (x1 y1 x2 y2 : Int) : Nat :=
  (x2 - x1).natAbs + (y2 - y1).natAbs + 1

/-- Emission sequence of draw_line from draw.c: the list of (x, y)
arguments it passes to set_at, in order.  Mirrors the four cases of the
C function: single point, horizontal, vertical, general Bresenham. -/
def draw_line_points (x1 y1 x2 y2 : Int) : List (Int × Int) :=
  if x1 = x2 ∧ y1 = y2 then
    [(x1, y1)]
  else if y1 = y2 then
    (List.range ((x1 - x2).natAbs + 1)).map
      (fun k : Nat => (x1 + (if x1 < x2 then 1 else -1) * (k : Int), y1))
  else if x1 = x2 then
    (List.range ((y1 - y2).natAbs + 1)).map
      (fun k : Nat => (x1, y1 + (if y1 < y2 then 1 else -1) * (k : Int)))
  else
    match bresLoop x2 y2 (if x1 < x2 then 1 else -1) (if y1 < y2 then 1 else -1)
        ((x2 - x1).natAbs : Int) ((y2 - y1).natAbs : Int)
        (bresFuel x1 y1 x2 y2) x1 y1
        (Int.tdiv (if ((x2 - x1).natAbs : Int) > ((y2 - y1).natAbs : Int)
          then ((x2 - x1).natAbs : Int) else -((y2 - y1).natAbs : Int)) 2) with
    | some l => l
    | none => []

/-! ### Thick lines (draw_line_width) and the line primitive -/

/-- Loop of draw_line_width for width greater than 1: for loop = 1, 3, 5, ...
below width, draw a parallel line at offset +(loop/2 + 1) and, if loop + 1
is still below width, another at offset -(loop/2 + 1). -/
def dlwAux (w x1 y1 x2 y2 xinc yinc : Int) : Nat → Int → List (Int × Int)
  | 0, _ => []
  | n + 1, loop =>
      if loop < w then
        draw_line_points (x1 + xinc * (Int.tdiv loop 2 + 1))
            (y1 + yinc * (Int.tdiv loop 2 + 1))
            (x2 + xinc * (Int.tdiv loop 2 + 1))
            (y2 + yinc * (Int.tdiv loop 2 + 1)) ++
          (if loop + 1 < w then
            draw_line_points (x1 - xinc * (Int.tdiv loop 2 + 1))
              (y1 - yinc * (Int.tdiv loop 2 + 1))
              (x2 - xinc * (Int.tdiv loop 2 + 1))
              (y2 - yinc * (Int.tdiv loop 2 + 1))
          else []) ++
          dlwAux w x1 y1 x2 y2 xinc yinc n (loop + 2)
      else []

/-- Emission sequence of draw_line_width: thicken in y when the absolute
x-delta is larger than the absolute y-delta, else in x; draw the central
line, then the parallel offset copies. -/
def draw_line_width_points (w x1 y1 x2 y2 : Int) : List (Int × Int) :=
  draw_line_points x1 y1 x2 y2 ++
    (if w ≠ 1 then
      dlwAux w x1 y1 x2 y2
        (if (x1 - x2).natAbs > (y1 - y2).natAbs then 0 else 1)
        (if (x1 - x2).natAbs > (y1 - y2).natAbs then 1 else 0)
        (w.natAbs + 2) 1
    else [])

/-- Pixels the line primitive attempts to write: nothing when width is
below 1 (early return), otherwise the draw_line_width emissions. -/
def line_prim_points (width x1 y1 x2 y2 : Int) : List (Int × Int) :=
  if width < 1 then [] else draw_line_width_points width x1 y1 x2 y2

/-- The line primitive (function line of draw.c, after argument parsing):
width below 1 returns a zero-size rect at the start point without touching
the surface; otherwise draw_line_width runs and the rect is assembled from
the drawn_area accumulator with the start point as anchor. -/
def line_prim (s : Surf) (color : Nat) (x1 y1 x2 y2 width : Int) : Surf × Rect :=
  if width < 1 then
    (s, ⟨x1, y1, 0, 0⟩)
  else
    ((applyWrites color s area0 (draw_line_width_points width x1 y1 x2 y2)).1,
      assembleRect (applyWrites color s area0 (draw_line_width_points width x1 y1 x2 y2)).2 x1 y1)

/-! ### Circles -/

/-- Driver state of draw_circle_filled. -/
structure CFState where
  f : Int
  ddF_x : Int
  ddF_y : Int
  x : Int
  y : Int

/-- Two interleaved vertical spans: for t in [0, n), emit (c1, a + t) then
(c2, a + t), as the span loops of draw_circle_filled do. -/
def spanPairs (c1 c2 a : Int) (n : Nat) : List (Int × Int) :=
  (List.range n).flatMap (fun t : Nat => [(c1, a + (t : Int)), (c2, a + (t : Int))])

/-- Loop of draw_circle_filled: while x is below y, advance the Bresenham
driver (decrement y when f is nonnegative, then increment x) and fill two
pairs of vertical spans. -/
def circleFilledLoop (x0 y0 : Int) : Nat → CFState → List (Int × Int)
  | 0, _ => []
  | n + 1, st =>
      if st.x < st.y then
        spanPairs (x0 + (if st.f ≥ 0 then st.y - 1 else st.y) - 1)
            (x0 - (if st.f ≥ 0 then st.y - 1 else st.y))
            (y0 - (st.x + 1)) (2 * (st.x + 1)).toNat ++
          spanPairs (x0 + (st.x + 1) - 1) (x0 - (st.x + 1))
            (y0 - (if st.f ≥ 0 then st.y - 1 else st.y))
            (2 * (if st.f ≥ 0 then st.y - 1 else st.y)).toNat ++
          circleFilledLoop x0 y0 n
            ⟨(if st.f ≥ 0 then st.f + (st.ddF_y + 2) else st.f) + (st.ddF_x + 2) + 1,
              st.ddF_x + 2,
              if st.f ≥ 0 then st.ddF_y + 2 else st.ddF_y,
              st.x + 1,
              if st.f ≥ 0 then st.y - 1 else st.y⟩
      else []

/-- Emission sequence of draw_circle_filled. -/
def draw_circle_filled_points (x0 y0 radius : Int) : List (Int × Int) :=
  circleFilledLoop x0 y0 (radius.toNat + 1) ⟨1 - radius, 0, -2 * radius, 0, radius⟩

/-- Driver state of draw_circle_bresenham: the outer driver, the inner
driver at radius minus thickness, and the mutable thickness variable. -/
structure CBState where
  f : Int
  ddF_x : Int
  ddF_y : Int
  x : Int
  y : Int
  i_f : Int
  i_ddF_x : Int
  i_ddF_y : Int
  i_y : Int
  thickness : Int

/-- Pixels emitted by one pass of the inner octant body of
draw_circle_bresenham for a given y1, with the four seam guards. -/
def octantPixels (x0 y0 x y1 : Int) : List (Int × Int) :=
  (if y0 + y1 - 1 ≥ y0 + x - 1 then
    [(x0 + x - 1, y0 + y1 - 1), (x0 - x, y0 + y1 - 1)] else []) ++
  (if y0 - y1 ≤ y0 - x then
    [(x0 + x - 1, y0 - y1), (x0 - x, y0 - y1)] else []) ++
  (if x0 + y1 - 1 ≥ x0 + x - 1 then
    [(x0 + y1 - 1, y0 + x - 1), (x0 + y1 - 1, y0 - x)] else []) ++
  (if x0 - y1 ≤ x0 - x then
    [(x0 - y1, y0 + x - 1), (x0 - y1, y0 - x)] else [])

/-- Loop of draw_circle_bresenham: advance the outer and the inner driver in
lockstep, reassign thickness to y - i_y while it is above 1, then emit the
octant pixels for y1 = y - i, i ranging over [0, thickness). -/
def circleBresLoop (x0 y0 : Int) : Nat → CBState → List (Int × Int)
  | 0, _ => []
  | n + 1, st =>
      if st.x < st.y then
        ((List.range (if st.thickness > 1
              then (if st.f ≥ 0 then st.y - 1 else st.y) -
                (if st.i_f ≥ 0 then st.i_y - 1 else st.i_y)
              else st.thickness).toNat).flatMap
          (fun i : Nat => octantPixels x0 y0 (st.x + 1)
            ((if st.f ≥ 0 then st.y - 1 else st.y) - (i : Int)))) ++
        circleBresLoop x0 y0 n
          ⟨(if st.f ≥ 0 then st.f + (st.ddF_y + 2) else st.f) + (st.ddF_x + 2) + 1,
            st.ddF_x + 2,
            if st.f ≥ 0 then st.ddF_y + 2 else st.ddF_y,
            st.x + 1,
            if st.f ≥ 0 then st.y - 1 else st.y,
            (if st.i_f ≥ 0 then st.i_f + (st.i_ddF_y + 2) else st.i_f) + (st.i_ddF_x + 2) + 1,
            st.i_ddF_x + 2,
            if st.i_f ≥ 0 then st.i_ddF_y + 2 else st.i_ddF_y,
            if st.i_f ≥ 0 then st.i_y - 1 else st.i_y,
            if st.thickness > 1
              then (if st.f ≥ 0 then st.y - 1 else st.y) -
                (if st.i_f ≥ 0 then st.i_y - 1 else st.i_y)
              else st.thickness⟩
      else []

/-- Emission sequence of draw_circle_bresenham. -/
def draw_circle_bresenham_points (x0 y0 radius thickness : Int) : List (Int × Int) :=
  circleBresLoop x0 y0 (radius.toNat + 1)
    ⟨1 - radius, 0, -2 * radius, 0, radius,
      1 - (radius - thickness), 0, -2 * (radius - thickness), radius - thickness, thickness⟩

/-- Dispatch of the circle primitive for the default (all-false) quadrant
flags: clamp width to the radius, then draw filled when the clamped width
is 0 or equals the radius, else the thick Bresenham outline. -/
def circle_dispatch_points (x0 y0 radius width : Int) : List (Int × Int) :=
  if (if width > radius then radius else width) = 0 ∨
      (if width > radius then radius else width) = radius then
    draw_circle_filled_points x0 y0 radius
  else
    draw_circle_bresenham_points x0 y0 radius (if width > radius then radius else width)

/-- Pixels the circle primitive attempts to write: nothing when the radius
is below 1 or the width negative (early return). -/
def circle_prim_points (posx posy radius width : Int) : List (Int × Int) :=
  if radius < 1 ∨ width < 0 then [] else circle_dispatch_points posx posy radius width

/-- The circle primitive (function circle of draw.c, default quadrant
flags): radius below 1 or negative width returns a zero-size rect at the
center without touching the surface; otherwise the dispatched raster runs
and the rect is assembled with the center as anchor. -/
def circle_prim (s : Surf) (color : Nat) (posx posy radius width : Int) : Surf × Rect :=
  if radius < 1 ∨ width < 0 then
    (s, ⟨posx, posy, 0, 0⟩)
  else
    ((applyWrites color s area0 (circle_dispatch_points posx posy radius width)).1,
      assembleRect (applyWrites color s area0 (circle_dispatch_points posx posy radius width)).2 posx posy)

/-! ### Ellipse (draw_ellipse) -/

/-- Low bit of a C int, i.e. n bitand 1 in two's complement. -/
def lowBit (n : Int) : Int := ((n.natAbs % 2 : Nat) : Int)

/-- Half-height actually handed to the ellipse rasterization loops: the C
source executes ry += (solid bitand 1) - yoff after the degenerate special
cases, where yoff = 1 - (height bitand 1). -/
def ellipse_ry_used (height : Int) (solid : Bool) : Int :=
  Int.tdiv height 2 + (if solid then 1 else 0) - (1 - lowBit height)

/-- Main ellipse loop for the rx at-least-ry branch: times-64 fixed-point
accumulators ix, iy; duplicate-row guards oj, ok (oh, oi are carried but
unused in this branch, as in the source).  The C shift (v + 8) >> 6 is
floor division by 64; all other divisions are C truncating division. -/
def ellipseLoopA (x y rx ry xoff yoff : Int) (solid : Bool) :
    Nat → Int → Int → Int → Int → Int → Int → List (Int × Int)
  | 0, _, _, _, _, _, _ => []
  | n + 1, ix, iy, oh, oi, oj, ok =>
      let h := Int.fdiv (ix + 8) 64
      let i := Int.fdiv (iy + 8) 64
      let j := Int.tdiv (h * ry) rx
      let k := Int.tdiv (i * ry) rx
      let cond1 : Bool := ((ok ≠ k ∧ oj ≠ k ∧ k < ry) ∨ ¬ solid : Bool)
      let out1 :=
        if cond1 then
          (if solid then
            draw_line_points (x - h) (y - k - yoff) (x + h - xoff) (y - k - yoff) ++
              draw_line_points (x - h) (y + k) (x + h - xoff) (y + k)
          else
            [(x - h, y - k - yoff), (x + h - xoff, y - k - yoff),
              (x - h, y + k), (x + h - xoff, y + k)])
        else []
      let ok2 := if cond1 then k else ok
      let cond2 : Bool := ((oj ≠ j ∧ ok2 ≠ j ∧ k ≠ j) ∨ ¬ solid : Bool)
      let out2 :=
        if cond2 then
          (if solid then
            draw_line_points (x - i) (y + j) (x + i - xoff) (y + j) ++
              draw_line_points (x - i) (y - j - yoff) (x + i - xoff) (y - j - yoff)
          else
            [(x - i, y + j), (x + i - xoff, y + j),
              (x - i, y - j - yoff), (x + i - xoff, y - j - yoff)])
        else []
      let oj2 := if cond2 then j else oj
      let ix2 := ix + Int.tdiv iy rx
      let iy2 := iy - Int.tdiv ix2 rx
      out1 ++ out2 ++
        (if i > h then ellipseLoopA x y rx ry xoff yoff solid n ix2 iy2 oh oi oj2 ok2 else [])

/-- Main ellipse loop for the ry above-rx branch: mirror image of
ellipseLoopA with the roles of the axes swapped and guards oh, oi. -/
def ellipseLoopB (x y rx ry xoff yoff : Int) (solid : Bool) :
    Nat → Int → Int → Int → Int → Int → Int → List (Int × Int)
  | 0, _, _, _, _, _, _ => []
  | n + 1, ix, iy, oh, oi, oj, ok =>
      let h := Int.fdiv (ix + 8) 64
      let i := Int.fdiv (iy + 8) 64
      let j := Int.tdiv (h * rx) ry
      let k := Int.tdiv (i * rx) ry
      let cond1 : Bool := ((oi ≠ i ∧ oh ≠ i ∧ i < ry) ∨ ¬ solid : Bool)
      let out1 :=
        if cond1 then
          (if solid then
            draw_line_points (x - j) (y + i) (x + j - xoff) (y + i) ++
              draw_line_points (x - j) (y - i - yoff) (x + j - xoff) (y - i - yoff)
          else
            [(x - j, y + i), (x + j - xoff, y + i),
              (x - j, y - i - yoff), (x + j - xoff, y - i - yoff)])
        else []
      let oi2 := if cond1 then i else oi
      let cond2 : Bool := ((oh ≠ h ∧ oi2 ≠ h ∧ i ≠ h) ∨ ¬ solid : Bool)
      let out2 :=
        if cond2 then
          (if solid then
            draw_line_points (x - k) (y + h) (x + k - xoff) (y + h) ++
              draw_line_points (x - k) (y - h - yoff) (x + k - xoff) (y - h - yoff)
          else
            [(x - k, y + h), (x + k - xoff, y + h),
              (x - k, y - h - yoff), (x + k - xoff, y - h - yoff)])
        else []
      let oh2 := if cond2 then h else oh
      let ix2 := ix + Int.tdiv iy ry
      let iy2 := iy - Int.tdiv ix2 ry
      out1 ++ out2 ++
        (if i > h then ellipseLoopB x y rx ry xoff yoff solid n ix2 iy2 oh2 oi2 oj ok else [])

/-- Rasterization of a non-degenerate ellipse once the half-extents, parity
offsets and the adjusted half-height ry2 are fixed: branch on rx at-least
ry2 exactly as the source does, with the guards initialized to 0xFFFF. -/
def ellipse_rasterize (x y rx ry2 xoff yoff : Int) (solid : Bool) (fuel : Nat) :
    List (Int × Int) :=
  if rx ≥ ry2 then
    ellipseLoopA x y rx ry2 xoff yoff solid fuel 0 (rx * 64) 65535 65535 65535 65535
  else
    ellipseLoopB x y rx ry2 xoff yoff solid fuel 0 (ry2 * 64) 65535 65535 65535 65535

/-- Emission sequence of draw_ellipse: width and height are the full
extents (nonnegative in every call the primitive makes); rx, ry are the
half-extents, with the single-pixel, vertical-line and horizontal-line
degeneracies first, and the ry adjustment ellipse_ry_used applied before
the main loops. -/
def draw_ellipse_points (x y width height : Int) (solid : Bool) : List (Int × Int) :=
  let rx := Int.tdiv width 2
  let ry := Int.tdiv height 2
  if rx = 0 ∧ ry = 0 then
    [(x, y)]
  else if rx = 0 then
    draw_line_points x (y - ry) x (y + ry + lowBit height)
  else if ry = 0 then
    draw_line_points (x - rx) y (x + rx + lowBit width) y
  else
    ellipse_rasterize x y rx (ellipse_ry_used height solid)
      (1 - lowBit width) (1 - lowBit height) solid
      (width.natAbs + height.natAbs + 100)

/-! ### Antialiased color sampler (get_antialiased_color)

SDL_GetRGBA and SDL_MapRGBA are external SDL calls; they are modelled for
a 32-bit RGBA8888 format (R in the top byte), which is lossless. -/

/-- RGBA channels of a 32-bit RGBA8888 color. -/
def getRGBA (c : Nat) : Nat × Nat × Nat × Nat :=
  ((c / 16777216) % 256, (c / 65536) % 256, (c / 256) % 256, c % 256)

/-- Map RGBA channels back to a 32-bit RGBA8888 color. -/
def mapRGBA (r g b a : Nat) : Nat :=
  (r % 256) * 16777216 + (g % 256) * 65536 + (b % 256) * 256 + (a % 256)

/-- One blended channel: the C source computes the float expression
brightness * src + (1 - brightness) * dst and casts it to Uint8, which for
a nonnegative value truncates, i.e. takes the floor. -/
def blendChannel (br : ℚ) (c bg : Nat) : Nat :=
  (Int.floor (br * (c : ℚ) + (1 - br) * (bg : ℚ))).toNat

/-- One scaled channel of the non-blend branch: brightness * src, cast to
Uint8 (floor). -/
def scaleChannel (br : ℚ) (c : Nat) : Nat :=
  (Int.floor (br * (c : ℚ))).toNat

/-- get_antialiased_color from draw.c.  With blend set it returns the
source color unchanged when (x, y) misses the clip rectangle; otherwise it
reads the destination pixel, interpolates each channel and remaps.  The
destination read pixels[(y * surf->w) + x] addresses pixel (x, y) of a
32-bit surface whose pitch is 4 * w, which is the pixel function here. -/
def get_antialiased_color (s : Surf) (x y : Int) (original_color : Nat)
    (brightness : ℚ) (blend : Bool) : Nat :=
  let cp := getRGBA original_color
  if blend then
    if clipMiss s x y then
      original_color
    else
      let bg := getRGBA (s.pixels x y)
      mapRGBA (blendChannel brightness cp.1 bg.1)
        (blendChannel brightness cp.2.1 bg.2.1)
        (blendChannel brightness cp.2.2.1 bg.2.2.1)
        (blendChannel brightness cp.2.2.2 bg.2.2.2)
  else
    mapRGBA (scaleChannel brightness cp.1) (scaleChannel brightness cp.2.1)
      (scaleChannel brightness cp.2.2.1) (scaleChannel brightness cp.2.2.2)

/-- One channel as the specification words it: round(cov * src + (1 - cov) * dst).
Written from the spec sentence, to be compared with the implementation. -/
def blendChannelSpec (br : ℚ) (c bg : Nat) : Nat :=
  (round (br * (c : ℚ) + (1 - br) * (bg : ℚ))).toNat

/-- get_antialiased_color as the specification describes the blend branch:
identical control flow but with rounded channel interpolation.  Written
from the spec, to be compared with the implementation. -/
def get_antialiased_color_spec (s : Surf) (x y : Int) (original_color : Nat)
    (brightness : ℚ) (blend : Bool) : Nat :=
  let cp := getRGBA original_color
  if blend then
    if clipMiss s x y then
      original_color
    else
      let bg := getRGBA (s.pixels x y)
      mapRGBA (blendChannelSpec brightness cp.1 bg.1)
        (blendChannelSpec brightness cp.2.1 bg.2.1)
        (blendChannelSpec brightness cp.2.2.1 bg.2.2.1)
        (blendChannelSpec brightness cp.2.2.2 bg.2.2.2)
  else
    mapRGBA (scaleChannel brightness cp.1) (scaleChannel brightness cp.2.1)
      (scaleChannel brightness cp.2.2.1) (scaleChannel brightness cp.2.2.2)

/-! ### Polygon scanline fill (draw_fillpoly) and the lines / polygon
primitives -/

/-- Insertion of an Int into an ascending list, for the qsort call. -/
def insertAsc (a : Int) : List Int → List Int
  | [] => [a]
  | b :: l => if a ≤ b then a :: b :: l else b :: insertAsc a l

/-- Ascending sort of the x-intersection buffer (qsort with compare_int). -/
def sortAsc : List Int → List Int
  | [] => []
  | a :: l => insertAsc a (sortAsc l)

/-- X-intersections of scanline y with the polygon edges, in edge order:
edge (i_prev, i) arranged so its y values ascend, horizontal edges skipped,
included iff y lies in [y1, y2) or y is the bottom line and the edge ends
there; the intersection abscissa is the C integer interpolation. -/
def fillpolyXsects (pts : List (Int × Int)) (y maxy : Int) : List Int :=
  (List.range pts.length).filterMap (fun idx =>
    let p2 := pts.getD idx (0, 0)
    let p1 := pts.getD (if idx = 0 then pts.length - 1 else idx - 1) (0, 0)
    if p1.2 = p2.2 then none
    else
      let a := if p1.2 < p2.2 then p1 else p2
      let b := if p1.2 < p2.2 then p2 else p1
      if (y ≥ a.2 ∧ y < b.2) ∨ (y = maxy ∧ b.2 = maxy) then
        some (Int.tdiv ((y - a.2) * (b.1 - a.1)) (b.2 - a.2) + a.1)
      else none)

/-- Horizontal lines between consecutive pairs of sorted intersections.
With an odd count the C source reads one element past the filled part of
the buffer (uninitialized memory); the unpaired element is dropped here. -/
def drawPairs (y : Int) : List Int → List (Int × Int)
  | a :: b :: rest => draw_line_points a y b y ++ drawPairs y rest
  | _ => []

/-- Emission sequence of draw_fillpoly (assuming the x_intersect scratch
allocation succeeded; see linesScratch for the allocation discipline):
the 1-pixel-high special case, then the scanline sweep, then the
horizontal-edge fixup pass. -/
def draw_fillpoly_points (pts : List (Int × Int)) : List (Int × Int) :=
  let ys := pts.map Prod.snd
  let miny := ys.foldl min ((pts.getD 0 (0, 0)).2)
  let maxy := ys.foldl max ((pts.getD 0 (0, 0)).2)
  if miny = maxy then
    draw_line_points ((pts.map Prod.fst).foldl min ((pts.getD 0 (0, 0)).1)) miny
      ((pts.map Prod.fst).foldl max ((pts.getD 0 (0, 0)).1)) miny
  else
    ((List.range (maxy - miny + 1).toNat).flatMap (fun t : Nat =>
      drawPairs (miny + (t : Int)) (sortAsc (fillpolyXsects pts (miny + (t : Int)) maxy)))) ++
    ((List.range pts.length).flatMap (fun idx =>
      let p := pts.getD idx (0, 0)
      let q := pts.getD (if idx = 0 then pts.length - 1 else idx - 1) (0, 0)
      if miny < p.2 ∧ q.2 = p.2 ∧ p.2 < maxy then
        draw_line_points p.1 p.2 q.1 q.2
      else []))

/-- Errors a primitive can surface to the caller. -/
inductive DrawErr where
  | tooFewPoints
  | memory
  | typeError
  | runtime
deriving DecidableEq

/-- Segment emissions of the lines primitive: one draw_line_width per
consecutive pair of points. -/
def segPoints (w : Int) : List (Int × Int) → List (Int × Int)
  | [] => []
  | [_] => []
  | a :: b :: rest =>
      draw_line_width_points w a.1 a.2 b.1 b.2 ++ segPoints w (b :: rest)

/-- Emission sequence of the lines primitive once drawing starts: the open
polyline plus, when closed and more than two points, the closing segment. -/
def lines_prim_points (closed : Bool) (w : Int) (pts : List (Int × Int)) :
    List (Int × Int) :=
  segPoints w pts ++
    (if closed ∧ pts.length > 2 then
      draw_line_width_points w (pts.getLastD (0, 0)).1 (pts.getLastD (0, 0)).2
        pts.headI.1 pts.headI.2
    else [])

/-- The lines primitive (function lines of draw.c, after argument parsing,
with the scratch allocations assumed to succeed; linesScratch models the
allocation discipline): fewer than 2 points is an error; width below 1
returns a zero-size rect at the first point; otherwise the polyline is
drawn and the rect assembled with the first point as anchor. -/
def lines_prim (s : Surf) (color : Nat) (closed : Bool)
    (pts : List (Int × Int)) (width : Int) : Except DrawErr (Surf × Rect) :=
  if pts.length < 2 then
    Except.error DrawErr.tooFewPoints
  else if width < 1 then
    Except.ok (s, ⟨pts.headI.1, pts.headI.2, 0, 0⟩)
  else
    Except.ok ((applyWrites color s area0 (lines_prim_points closed width pts)).1,
      assembleRect (applyWrites color s area0 (lines_prim_points closed width pts)).2
        pts.headI.1 pts.headI.2)

/-- The polygon primitive (function polygon of draw.c): a nonzero width is
forwarded to lines with closed set, before any point-count check; only the
filled path (width 0) requires at least 3 points, then runs the scanline
fill with the first point as anchor. -/
def polygon_prim (s : Surf) (color : Nat) (pts : List (Int × Int))
    (width : Int) : Except DrawErr (Surf × Rect) :=
  if width ≠ 0 then
    lines_prim s color true pts width
  else if pts.length < 3 then
    Except.error DrawErr.tooFewPoints
  else
    Except.ok ((applyWrites color s area0 (draw_fillpoly_points pts)).1,
      assembleRect (applyWrites color s area0 (draw_fillpoly_points pts)).2
        pts.headI.1 pts.headI.2)

/-! ### Scratch allocation discipline (PyMem_New / PyMem_Del) -/

/-- Heap of live scratch buffers, identified by allocation order. -/
structure Heap where
  live : List Nat
  next : Nat
deriving DecidableEq

/-- PyMem_New: returns a fresh buffer id on success, none (NULL) on
failure. -/
def pymem_new (h : Heap) (ok : Bool) : Option Nat × Heap :=
  if ok then (some h.next, ⟨h.next :: h.live, h.next + 1⟩) else (none, h)

/-- PyMem_Del of a possibly-NULL pointer. -/
def pymem_del (h : Heap) : Option Nat → Heap
  | some a => { h with live := h.live.erase a }
  | none => h

/-- Allocation discipline of the lines primitive, one branch per exit path
of the C function after the length check: xlist and ylist are allocated in
order; when either allocation fails the function returns the MemoryError
immediately, without freeing the one that succeeded (lines 406-412 of
draw.c); every later exit path (bad point pair, degenerate width, lock
failure, normal completion) frees both. -/
def linesScratch (ok1 ok2 parse_ok lock_ok : Bool) (width : Int) (h : Heap) :
    Except DrawErr Unit × Heap :=
  let r1 := pymem_new h ok1
  let r2 := pymem_new r1.2 ok2
  if r1.1 = none ∨ r2.1 = none then
    (Except.error DrawErr.memory, r2.2)
  else if ¬ parse_ok then
    (Except.error DrawErr.typeError, pymem_del (pymem_del r2.2 r1.1) r2.1)
  else if width < 1 then
    (Except.ok (), pymem_del (pymem_del r2.2 r1.1) r2.1)
  else if ¬ lock_ok then
    (Except.error DrawErr.runtime, pymem_del (pymem_del r2.2 r1.1) r2.1)
  else
    (Except.ok (), pymem_del (pymem_del r2.2 r1.1) r2.1)

/-- Sanity hypothesis on a surface's clip rectangle: it lies strictly
inside the 32-bit sentinel range, as any real SDL surface's does.  Needed
so that the INT_MAX / INT_MIN emptiness test of the accumulator cannot be
confused by a genuine coordinate. -/
def clipOK (s : Surf) : Prop :=
  intMin < s.clipX ∧ s.clipX + s.clipW ≤ intMax ∧
    intMin < s.clipY ∧ s.clipY + s.clipH ≤ intMax

instance (s : Surf) : Decidable (clipOK s) := by
  unfold clipOK; infer_instance

/-- Accumulating a list of pixels into a drawn_area value. -/
def areaFold (da : Area) (l : List (Int × Int)) : Area :=
  l.foldl (fun a p => add_pixel_to_drawn_list p.1 p.2 a) da

/-- A concrete 10 by 10 surface with full clip and zeroed pixels, used to
instantiate the theorems on concrete inputs. -/
def demoSurf : Surf := ⟨0, 0, 10, 10, fun _ _ => 0⟩

/-- A rect is the tight bounding box of a pixel list: every pixel lies
inside it and each of its four border rows/columns is attained by some
pixel.  For a nonempty list this pins the rect to exactly
(min x, min y, max x - min x + 1, max y - min y + 1). -/
def tightFor (r : Rect) (l : List (Int × Int)) : Prop :=
  (∀ p ∈ l, r.x ≤ p.1 ∧ p.1 ≤ r.x + r.w - 1 ∧ r.y ≤ p.2 ∧ p.2 ≤ r.y + r.h - 1) ∧
  (∃ p ∈ l, p.1 = r.x) ∧ (∃ p ∈ l, p.1 = r.x + r.w - 1) ∧
  (∃ p ∈ l, p.2 = r.y) ∧ (∃ p ∈ l, p.2 = r.y + r.h - 1)

instance (r : Rect) (l : List (Int × Int)) : Decidable (tightFor r l) := by
  unfold tightFor; infer_instance

/-! ## Helper lemmas -/

theorem set_at_miss (s : Surf) (x y : Int) (c : Nat) (da : Area)
    (h : clipMiss s x y) : set_at s x y c da = (s, da, 0) := by
  unfold set_at
  rw [if_pos h]

theorem set_at_clipMiss_iff (s : Surf) (x y a b : Int) (c : Nat) (da : Area) :
    clipMiss (set_at s x y c da).1 a b ↔ clipMiss s a b := by
  unfold set_at
  split <;> rfl

theorem set_at_insideClip (s : Surf) (x y : Int) (c : Nat) (da : Area)
    (p : Int × Int) : insideClip (set_at s x y c da).1 p = insideClip s p := by
  unfold set_at insideClip
  split <;> rfl

theorem set_at_pixels_miss (s : Surf) (x y a b : Int) (c : Nat) (da : Area)
    (h : clipMiss s a b) :
    (set_at s x y c da).1.pixels a b = s.pixels a b := by
  unfold set_at
  split
  case isTrue => rfl
  case isFalse hw =>
    show (if a = x ∧ b = y then c else s.pixels a b) = s.pixels a b
    rw [if_neg]
    rintro ⟨rfl, rfl⟩
    exact hw h

theorem applyWrites_pixels_miss (c : Nat) (l : List (Int × Int)) :
    ∀ (s : Surf) (da : Area) (a b : Int), clipMiss s a b →
      (applyWrites c s da l).1.pixels a b = s.pixels a b := by
  induction l with
  | nil => intro s da a b _; rfl
  | cons p rest ih =>
      intro s da a b h
      show (applyWrites c (set_at s p.1 p.2 c da).1 (set_at s p.1 p.2 c da).2.1 rest).1.pixels a b
        = s.pixels a b
      rw [ih (set_at s p.1 p.2 c da).1 (set_at s p.1 p.2 c da).2.1 a b
        ((set_at_clipMiss_iff s p.1 p.2 a b c da).2 h)]
      exact set_at_pixels_miss s p.1 p.2 a b c da h

theorem get_antialiased_color_miss (s : Surf) (x y : Int) (c : Nat) (br : ℚ)
    (h : clipMiss s x y) : get_antialiased_color s x y c br true = c := by
  unfold get_antialiased_color
  simp [h]

/-! ## C1: clip safety -/

/-- C1: set_at is a no-op returning 0 whenever (x, y) lies outside the clip
rectangle; consequently no sequence of set_at calls (and every primitive
is one) ever modifies a pixel outside the clip rectangle; and the blend
branch of get_antialiased_color returns the source color, without reading
the destination, whenever the location is outside the clip rectangle. -/
theorem C1_clip_safety :
    (∀ (s : Surf) (x y : Int) (c : Nat) (da : Area), clipMiss s x y →
      set_at s x y c da = (s, da, 0)) ∧
    (∀ (c : Nat) (l : List (Int × Int)) (s : Surf) (da : Area) (a b : Int),
      clipMiss s a b → (applyWrites c s da l).1.pixels a b = s.pixels a b) ∧
    (∀ (s : Surf) (x y : Int) (c : Nat) (br : ℚ), clipMiss s x y →
      get_antialiased_color s x y c br true = c) :=
  ⟨set_at_miss,
    fun c l s da a b h => applyWrites_pixels_miss c l s da a b h,
    get_antialiased_color_miss⟩

/-- Witness for C1: on the concrete surface, writing at (-5, 2) is a no-op,
a draw sequence leaves the out-of-clip pixel (-5, 2) at its old value, and
blending at (12, 3) returns the source color unchanged. -/
theorem C1_clip_safety_witness :
    set_at demoSurf (-5) 2 7 area0 = (demoSurf, area0, 0) ∧
    (applyWrites 7 demoSurf area0 [(-5, 2), (3, 3)]).1.pixels (-5) 2 =
      demoSurf.pixels (-5) 2 ∧
    get_antialiased_color demoSurf 12 3 12345 (1/2) true = 12345 :=
  ⟨C1_clip_safety.1 demoSurf (-5) 2 7 area0 (by decide),
    C1_clip_safety.2.1 7 [(-5, 2), (3, 3)] demoSurf area0 (-5) 2 (by decide),
    C1_clip_safety.2.2 demoSurf 12 3 12345 (1/2) (by decide)⟩

/-! ## C8: degenerate-but-valid inputs -/

/-- C8: circle with radius below 1 or negative width, and line with width
below 1, are not errors: they leave every pixel of the surface unmodified
and return a zero-size rect at the primitive's anchor (the circle's
center, the line's start point). -/
theorem C8_degenerate_valid :
    ∀ (s : Surf) (c : Nat) (px py r w x1 y1 x2 y2 lw : Int),
      (r < 1 ∨ w < 0 → circle_prim s c px py r w = (s, ⟨px, py, 0, 0⟩)) ∧
      (lw < 1 → line_prim s c x1 y1 x2 y2 lw = (s, ⟨x1, y1, 0, 0⟩)) := by
  intro s c px py r w x1 y1 x2 y2 lw
  constructor
  · intro h
    unfold circle_prim
    rw [if_pos h]
  · intro h
    unfold line_prim
    rw [if_pos h]

/-- Witness for C8: radius 0 circle and width 0 line on the concrete
surface return zero-size rects at their anchors with the surface intact. -/
theorem C8_degenerate_valid_witness :
    circle_prim demoSurf 5 3 4 0 2 = (demoSurf, ⟨3, 4, 0, 0⟩) ∧
    line_prim demoSurf 5 2 6 7 7 0 = (demoSurf, ⟨2, 6, 0, 0⟩) :=
  ⟨(C8_degenerate_valid demoSurf 5 3 4 0 2 2 6 7 7 0).1 (Or.inl (by decide)),
    (C8_degenerate_valid demoSurf 5 3 4 0 2 2 6 7 7 0).2 (by decide)⟩

/-! ## C10: polygon point-count check only in filled mode -/

/-- C10: polygon forwards any call with nonzero width to
lines(closed = true, width) before checking the point count, so a 2-point
list with positive width succeeds and draws the thick segment, while the
same list with width 0 raises the too-few-points error. -/
theorem C10_polygon_min_points :
    ∀ (s : Surf) (c : Nat) (p1 p2 : Int × Int) (w : Int), 0 < w →
      polygon_prim s c [p1, p2] w = lines_prim s c true [p1, p2] w ∧
      polygon_prim s c [p1, p2] w =
        Except.ok ((applyWrites c s area0 (draw_line_width_points w p1.1 p1.2 p2.1 p2.2)).1,
          assembleRect
            (applyWrites c s area0 (draw_line_width_points w p1.1 p1.2 p2.1 p2.2)).2
            p1.1 p1.2) ∧
      polygon_prim s c [p1, p2] 0 = Except.error DrawErr.tooFewPoints := by
  intro s c p1 p2 w hw
  refine ⟨?_, ?_, ?_⟩
  · unfold polygon_prim
    rw [if_pos (by omega : w ≠ 0)]
  · unfold polygon_prim lines_prim
    rw [if_pos (by omega : w ≠ 0), if_neg (by simp), if_neg (by omega : ¬ w < 1)]
    show Except.ok ((applyWrites c s area0 (lines_prim_points true w [p1, p2])).1,
      assembleRect (applyWrites c s area0 (lines_prim_points true w [p1, p2])).2
        p1.1 p1.2) = _
    have hpts : lines_prim_points true w [p1, p2] =
        draw_line_width_points w p1.1 p1.2 p2.1 p2.2 := by
      unfold lines_prim_points segPoints segPoints
      simp
    rw [hpts]
  · unfold polygon_prim
    rw [if_neg (by simp), if_pos (by simp)]

/-- Witness for C10: with width 2 a 2-point polygon call is forwarded to
lines and succeeds; with width 0 it errors. -/
theorem C10_polygon_min_points_witness :
    polygon_prim demoSurf 1 [(0, 0), (3, 0)] 2 =
      lines_prim demoSurf 1 true [(0, 0), (3, 0)] 2 ∧
    polygon_prim demoSurf 1 [(0, 0), (3, 0)] 0 = Except.error DrawErr.tooFewPoints :=
  ⟨(C10_polygon_min_points demoSurf 1 (0, 0) (3, 0) 2 (by decide)).1,
    (C10_polygon_min_points demoSurf 1 (0, 0) (3, 0) 2 (by decide)).2.2⟩

/-! ## C9: scratch buffers on error exit paths -/

/-- C9 evaluation: when both coordinate-array allocations of lines succeed,
every exit path (bad point pair, degenerate width, lock failure, normal
completion) leaves the heap as it was; but when the first allocation
succeeds and the second fails, the function reports the out-of-memory
error with the first buffer still allocated: the successful allocation is
leaked, contradicting the claim. -/
theorem C9_lines_scratch_leak :
    ∀ (parse lock : Bool) (w : Int) (h : Heap),
      (linesScratch true true parse lock w h).2.live = h.live ∧
      (linesScratch true false parse lock w h).1 = Except.error DrawErr.memory ∧
      (linesScratch true false parse lock w h).2.live = h.next :: h.live := by
  intro parse lock w h
  refine ⟨?_, rfl, rfl⟩
  have herase : (((h.next + 1) :: h.next :: h.live).erase h.next).erase (h.next + 1)
      = h.live := by
    rw [List.erase_cons, if_neg (by simp), List.erase_cons, if_pos (by simp),
      List.erase_cons, if_pos (by simp)]
  unfold linesScratch pymem_new pymem_del
  simp only [if_true, Bool.true_eq_false]
  rw [if_neg (by simp)]
  split
  · exact herase
  · split
    · exact herase
    · split
      · exact herase
      · exact herase

/-! ## C3: the antialiased blend formula -/

theorem gac_blend_inside (s : Surf) (x y : Int) (c : Nat) (br : ℚ)
    (h : ¬ clipMiss s x y) :
    get_antialiased_color s x y c br true =
      mapRGBA (blendChannel br (getRGBA c).1 (getRGBA (s.pixels x y)).1)
        (blendChannel br (getRGBA c).2.1 (getRGBA (s.pixels x y)).2.1)
        (blendChannel br (getRGBA c).2.2.1 (getRGBA (s.pixels x y)).2.2.1)
        (blendChannel br (getRGBA c).2.2.2 (getRGBA (s.pixels x y)).2.2.2) := by
  unfold get_antialiased_color
  simp [h]

theorem gac_spec_blend_inside (s : Surf) (x y : Int) (c : Nat) (br : ℚ)
    (h : ¬ clipMiss s x y) :
    get_antialiased_color_spec s x y c br true =
      mapRGBA (blendChannelSpec br (getRGBA c).1 (getRGBA (s.pixels x y)).1)
        (blendChannelSpec br (getRGBA c).2.1 (getRGBA (s.pixels x y)).2.1)
        (blendChannelSpec br (getRGBA c).2.2.1 (getRGBA (s.pixels x y)).2.2.1)
        (blendChannelSpec br (getRGBA c).2.2.2 (getRGBA (s.pixels x y)).2.2.2) := by
  unfold get_antialiased_color_spec
  simp [h]

/-- C3 counterexample: blending pure red (channel 255) at coverage 1/2
into a black destination pixel inside the clip rect yields channel
floor(127.5) = 127, not round(127.5) = 128: the implementation disagrees
with the round-based sampler the claim describes at this concrete input. -/
theorem C3_round_counterexample :
    get_antialiased_color demoSurf 0 0 4278190080 (1/2) true ≠
      get_antialiased_color_spec demoSurf 0 0 4278190080 (1/2) true := by
  have h : ¬ clipMiss demoSurf 0 0 := by decide
  rw [gac_blend_inside demoSurf 0 0 4278190080 (1/2) h,
    gac_spec_blend_inside demoSurf 0 0 4278190080 (1/2) h]
  have hp : demoSurf.pixels 0 0 = 0 := rfl
  rw [hp]
  have hg : getRGBA 4278190080 = (255, 0, 0, 0) := by decide
  have hg0 : getRGBA 0 = (0, 0, 0, 0) := by decide
  rw [hg, hg0]
  have hb : blendChannel (1/2) 255 0 = 127 := by
    unfold blendChannel
    norm_num
    rfl
  have hbs : blendChannelSpec (1/2) 255 0 = 128 := by
    unfold blendChannelSpec
    rw [round_eq]
    norm_num
    rfl
  have hb0 : blendChannel (1/2) 0 0 = 0 := by
    unfold blendChannel
    norm_num
  have hbs0 : blendChannelSpec (1/2) 0 0 = 0 := by
    unfold blendChannelSpec
    rw [round_eq]
    norm_num
  simp only [hb, hbs, hb0, hbs0]
  decide

/-- C3 (amended): with blend set, a location inside the clip rectangle
yields each channel equal to the TRUNCATION (floor) of
cov * src + (1 - cov) * dst, remapped to the surface format; a location
outside the clip rectangle yields the source color unchanged.  (The claim
said round; the C cast to Uint8 truncates.) -/
theorem C3_blend_behaviour :
    ∀ (s : Surf) (x y : Int) (c : Nat) (br : ℚ),
      (¬ clipMiss s x y →
        get_antialiased_color s x y c br true =
          mapRGBA (blendChannel br (getRGBA c).1 (getRGBA (s.pixels x y)).1)
            (blendChannel br (getRGBA c).2.1 (getRGBA (s.pixels x y)).2.1)
            (blendChannel br (getRGBA c).2.2.1 (getRGBA (s.pixels x y)).2.2.1)
            (blendChannel br (getRGBA c).2.2.2 (getRGBA (s.pixels x y)).2.2.2)) ∧
      (clipMiss s x y → get_antialiased_color s x y c br true = c) :=
  fun s x y c br =>
    ⟨gac_blend_inside s x y c br, get_antialiased_color_miss s x y c br⟩

/-- Witness for C3: the inside-clip blend at (0, 0) and the outside-clip
pass-through at (12, 0) on the concrete surface. -/
theorem C3_blend_behaviour_witness :
    get_antialiased_color demoSurf 0 0 4278190080 (1/2) true =
      mapRGBA (blendChannel (1/2) (getRGBA 4278190080).1 (getRGBA (demoSurf.pixels 0 0)).1)
        (blendChannel (1/2) (getRGBA 4278190080).2.1 (getRGBA (demoSurf.pixels 0 0)).2.1)
        (blendChannel (1/2) (getRGBA 4278190080).2.2.1 (getRGBA (demoSurf.pixels 0 0)).2.2.1)
        (blendChannel (1/2) (getRGBA 4278190080).2.2.2 (getRGBA (demoSurf.pixels 0 0)).2.2.2) ∧
    get_antialiased_color demoSurf 12 0 999 (1/2) true = 999 :=
  ⟨(C3_blend_behaviour demoSurf 0 0 4278190080 (1/2)).1 (by decide),
    (C3_blend_behaviour demoSurf 12 0 999 (1/2)).2 (by decide)⟩

/-! ## C7: the ellipse half-height adjustment -/

set_option maxRecDepth 10000 in
/-- C7 counterexample: for the even height 4, outline mode does NOT
rasterize with ry unchanged: the C source adds (solid bitand 1) - yoff to
ry in both modes, so the outline receives ry = 1 rather than the
unadjusted ry = height / 2 = 2, and the emitted pixels differ from the
run the claim describes. -/
theorem C7_outline_ry_counterexample :
    ellipse_ry_used 4 false ≠ Int.tdiv 4 2 ∧
    draw_ellipse_points 0 0 6 4 false ≠ ellipse_rasterize 0 0 3 2 1 1 false 110 := by
  constructor
  · decide
  · decide

/-- C7 (amended): in the non-degenerate path the C source adds
(solid bitand 1) - yoff to ry before rasterizing.  Solid mode therefore
increases ry by 1 - yoff as claimed; outline mode rasterizes with ry
unchanged only when the height is odd, and with ry decreased by 1 when
the height is even (the claim said outline mode leaves ry unchanged). -/
theorem C7_ellipse_ry_adjustment :
    (∀ h : Int, ellipse_ry_used h true = Int.tdiv h 2 + 1 - (1 - lowBit h)) ∧
    (∀ h : Int, lowBit h = 1 → ellipse_ry_used h false = Int.tdiv h 2) ∧
    (∀ h : Int, lowBit h = 0 → ellipse_ry_used h false = Int.tdiv h 2 - 1) ∧
    (∀ (x y w h : Int) (so : Bool), Int.tdiv w 2 ≠ 0 → Int.tdiv h 2 ≠ 0 →
      draw_ellipse_points x y w h so =
        ellipse_rasterize x y (Int.tdiv w 2) (ellipse_ry_used h so)
          (1 - lowBit w) (1 - lowBit h) so (w.natAbs + h.natAbs + 100)) := by
  refine ⟨?_, ?_, ?_, ?_⟩
  · intro h
    unfold ellipse_ry_used
    simp
  · intro h hl
    unfold ellipse_ry_used
    rw [hl]
    simp
  · intro h hl
    unfold ellipse_ry_used
    rw [hl]
    simp
  · intro x y w h so hw hh
    unfold draw_ellipse_points
    rw [if_neg (by tauto), if_neg hw, if_neg hh]

/-- Witness for C7: odd height 5 keeps ry, and the full-ellipse wiring at
the concrete non-degenerate input (6, 4). -/
theorem C7_ellipse_ry_adjustment_witness :
    ellipse_ry_used 5 false = Int.tdiv 5 2 ∧
    draw_ellipse_points 0 0 6 4 false =
      ellipse_rasterize 0 0 (Int.tdiv 6 2) (ellipse_ry_used 4 false)
        (1 - lowBit 6) (1 - lowBit 4) false ((6 : Int).natAbs + (4 : Int).natAbs + 100) :=
  ⟨C7_ellipse_ry_adjustment.2.1 5 (by decide),
    C7_ellipse_ry_adjustment.2.2.2 0 0 6 4 false (by decide) (by decide)⟩

/-! ## C2: bounding-box tightness -/

theorem insideClip_iff (s : Surf) (p : Int × Int) :
    insideClip s p = true ↔ ¬ clipMiss s p.1 p.2 := by
  simp only [insideClip, clipMiss, decide_eq_true_eq]
  omega

theorem writtenPixels_set_at (s : Surf) (x y : Int) (c : Nat) (da : Area)
    (l : List (Int × Int)) :
    writtenPixels (set_at s x y c da).1 l = writtenPixels s l := by
  unfold writtenPixels
  exact List.filter_congr (fun p _ => set_at_insideClip s x y c da p)

theorem applyWrites_area (c : Nat) :
    ∀ (l : List (Int × Int)) (s : Surf) (da : Area),
      (applyWrites c s da l).2 = areaFold da (writtenPixels s l) := by
  intro l
  induction l with
  | nil => intro s da; rfl
  | cons p rest ih =>
      intro s da
      show (applyWrites c (set_at s p.1 p.2 c da).1 (set_at s p.1 p.2 c da).2.1 rest).2 = _
      rw [ih, writtenPixels_set_at]
      by_cases hm : clipMiss s p.1 p.2
      · rw [set_at_miss s p.1 p.2 c da hm]
        have hf : writtenPixels s (p :: rest) = writtenPixels s rest := by
          unfold writtenPixels
          rw [List.filter_cons_of_neg]
          simp [insideClip_iff, hm]
        rw [hf]
      · have h1 : (set_at s p.1 p.2 c da).2.1 = add_pixel_to_drawn_list p.1 p.2 da := by
          unfold set_at
          rw [if_neg hm]
        have hf : writtenPixels s (p :: rest) = p :: writtenPixels s rest := by
          unfold writtenPixels
          rw [List.filter_cons_of_pos]
          simp [insideClip_iff, hm]
        rw [h1, hf]
        rfl

theorem if_lt_eq_min (a b : Int) : (if b < a then b else a) = min a b := by
  rw [min_def]
  split
  · split <;> omega
  · split <;> omega

theorem if_gt_eq_max (a b : Int) : (if b > a then b else a) = max a b := by
  rw [max_def]
  split
  · split <;> omega
  · split <;> omega

theorem areaFold_minx :
    ∀ (l : List (Int × Int)) (da : Area),
      (areaFold da l).minx = (l.map Prod.fst).foldl min da.minx := by
  intro l
  induction l with
  | nil => intro da; rfl
  | cons p rest ih =>
      intro da
      show (areaFold (add_pixel_to_drawn_list p.1 p.2 da) rest).minx = _
      rw [ih]
      show (rest.map Prod.fst).foldl min (if p.1 < da.minx then p.1 else da.minx) = _
      rw [if_lt_eq_min, List.map_cons, List.foldl_cons]

theorem areaFold_miny :
    ∀ (l : List (Int × Int)) (da : Area),
      (areaFold da l).miny = (l.map Prod.snd).foldl min da.miny := by
  intro l
  induction l with
  | nil => intro da; rfl
  | cons p rest ih =>
      intro da
      show (areaFold (add_pixel_to_drawn_list p.1 p.2 da) rest).miny = _
      rw [ih]
      show (rest.map Prod.snd).foldl min (if p.2 < da.miny then p.2 else da.miny) = _
      rw [if_lt_eq_min, List.map_cons, List.foldl_cons]

theorem areaFold_maxx :
    ∀ (l : List (Int × Int)) (da : Area),
      (areaFold da l).maxx = (l.map Prod.fst).foldl max da.maxx := by
  intro l
  induction l with
  | nil => intro da; rfl
  | cons p rest ih =>
      intro da
      show (areaFold (add_pixel_to_drawn_list p.1 p.2 da) rest).maxx = _
      rw [ih]
      show (rest.map Prod.fst).foldl max (if p.1 > da.maxx then p.1 else da.maxx) = _
      rw [if_gt_eq_max, List.map_cons, List.foldl_cons]

theorem areaFold_maxy :
    ∀ (l : List (Int × Int)) (da : Area),
      (areaFold da l).maxy = (l.map Prod.snd).foldl max da.maxy := by
  intro l
  induction l with
  | nil => intro da; rfl
  | cons p rest ih =>
      intro da
      show (areaFold (add_pixel_to_drawn_list p.1 p.2 da) rest).maxy = _
      rw [ih]
      show (rest.map Prod.snd).foldl max (if p.2 > da.maxy then p.2 else da.maxy) = _
      rw [if_gt_eq_max, List.map_cons, List.foldl_cons]

theorem foldl_min_le_init : ∀ (l : List Int) (a : Int), l.foldl min a ≤ a := by
  intro l
  induction l with
  | nil => intro a; exact le_refl a
  | cons b rest ih =>
      intro a
      calc (b :: rest).foldl min a = rest.foldl min (min a b) := List.foldl_cons ..
        _ ≤ min a b := ih (min a b)
        _ ≤ a := min_le_left a b

theorem foldl_min_le_mem :
    ∀ (l : List Int) (a x : Int), x ∈ l → l.foldl min a ≤ x := by
  intro l
  induction l with
  | nil => intro a x hx; cases hx
  | cons b rest ih =>
      intro a x hx
      rw [List.foldl_cons]
      rcases List.mem_cons.1 hx with h | h
      · subst h
        exact le_trans (foldl_min_le_init rest (min a x)) (min_le_right a x)
      · exact ih (min a b) x h

theorem foldl_min_mem_or :
    ∀ (l : List Int) (a : Int), l.foldl min a = a ∨ l.foldl min a ∈ l := by
  intro l
  induction l with
  | nil => intro a; exact Or.inl rfl
  | cons b rest ih =>
      intro a
      rw [List.foldl_cons]
      rcases ih (min a b) with h | h
      · rw [h]
        rcases min_choice a b with h2 | h2
        · exact Or.inl h2
        · exact Or.inr (by rw [h2]; exact List.mem_cons_self b rest)
      · exact Or.inr (List.mem_cons_of_mem b h)

theorem foldl_max_ge_init : ∀ (l : List Int) (a : Int), a ≤ l.foldl max a := by
  intro l
  induction l with
  | nil => intro a; exact le_refl a
  | cons b rest ih =>
      intro a
      calc a ≤ max a b := le_max_left a b
        _ ≤ rest.foldl max (max a b) := ih (max a b)
        _ = (b :: rest).foldl max a := (List.foldl_cons ..).symm

theorem foldl_max_ge_mem :
    ∀ (l : List Int) (a x : Int), x ∈ l → x ≤ l.foldl max a := by
  intro l
  induction l with
  | nil => intro a x hx; cases hx
  | cons b rest ih =>
      intro a x hx
      rw [List.foldl_cons]
      rcases List.mem_cons.1 hx with h | h
      · subst h
        exact le_trans (le_max_right a x) (foldl_max_ge_init rest (max a x))
      · exact ih (max a b) x h

theorem foldl_max_mem_or :
    ∀ (l : List Int) (a : Int), l.foldl max a = a ∨ l.foldl max a ∈ l := by
  intro l
  induction l with
  | nil => intro a; exact Or.inl rfl
  | cons b rest ih =>
      intro a
      rw [List.foldl_cons]
      rcases ih (max a b) with h | h
      · rw [h]
        rcases max_choice a b with h2 | h2
        · exact Or.inl h2
        · exact Or.inr (by rw [h2]; exact List.mem_cons_self b rest)
      · exact Or.inr (List.mem_cons_of_mem b h)

theorem written_coord_bounds (s : Surf) (l : List (Int × Int)) (hs : clipOK s) :
    ∀ p ∈ writtenPixels s l,
      intMin < p.1 ∧ p.1 < intMax ∧ intMin < p.2 ∧ p.2 < intMax := by
  intro p hp
  have hin : insideClip s p = true := (List.mem_filter.1 hp).2
  rw [insideClip_iff] at hin
  unfold clipMiss at hin
  unfold clipOK at hs
  omega

/-- The drawn_area accumulator, folded over the surviving writes of any
emission list, assembles exactly the tight bounding rect of the written
pixels, or the zero-size anchor rect when nothing was written. -/
theorem bbox_of_writes (s : Surf) (c : Nat) (l : List (Int × Int)) (ax ay : Int)
    (hs : clipOK s) :
    (writtenPixels s l = [] →
      assembleRect (applyWrites c s area0 l).2 ax ay = ⟨ax, ay, 0, 0⟩) ∧
    (writtenPixels s l ≠ [] →
      tightFor (assembleRect (applyWrites c s area0 l).2 ax ay) (writtenPixels s l)) := by
  rw [applyWrites_area]
  constructor
  · intro he
    rw [he]
    show assembleRect area0 ax ay = _
    unfold assembleRect
    rw [if_neg]
    simp [area0]
  · intro hne
    rcases List.exists_mem_of_ne_nil (writtenPixels s l) hne with ⟨q, hq⟩
    have hbq := written_coord_bounds s l hs q hq
    have hminx : (areaFold area0 (writtenPixels s l)).minx =
        ((writtenPixels s l).map Prod.fst).foldl min intMax := by
      rw [areaFold_minx]
      rfl
    have hminy : (areaFold area0 (writtenPixels s l)).miny =
        ((writtenPixels s l).map Prod.snd).foldl min intMax := by
      rw [areaFold_miny]
      rfl
    have hmaxx : (areaFold area0 (writtenPixels s l)).maxx =
        ((writtenPixels s l).map Prod.fst).foldl max intMin := by
      rw [areaFold_maxx]
      rfl
    have hmaxy : (areaFold area0 (writtenPixels s l)).maxy =
        ((writtenPixels s l).map Prod.snd).foldl max intMin := by
      rw [areaFold_maxy]
      rfl
    have hq1 : q.1 ∈ (writtenPixels s l).map Prod.fst := List.mem_map_of_mem Prod.fst hq
    have hq2 : q.2 ∈ (writtenPixels s l).map Prod.snd := List.mem_map_of_mem Prod.snd hq
    have hminx_le : ((writtenPixels s l).map Prod.fst).foldl min intMax ≤ q.1 :=
      foldl_min_le_mem _ intMax q.1 hq1
    have hminy_le : ((writtenPixels s l).map Prod.snd).foldl min intMax ≤ q.2 :=
      foldl_min_le_mem _ intMax q.2 hq2
    have hmaxx_ge : q.1 ≤ ((writtenPixels s l).map Prod.fst).foldl max intMin :=
      foldl_max_ge_mem _ intMin q.1 hq1
    have hmaxy_ge : q.2 ≤ ((writtenPixels s l).map Prod.snd).foldl max intMin :=
      foldl_max_ge_mem _ intMin q.2 hq2
    have hminx_mem : ((writtenPixels s l).map Prod.fst).foldl min intMax ∈
        (writtenPixels s l).map Prod.fst := by
      rcases foldl_min_mem_or ((writtenPixels s l).map Prod.fst) intMax with h | h
      · omega
      · exact h
    have hminy_mem : ((writtenPixels s l).map Prod.snd).foldl min intMax ∈
        (writtenPixels s l).map Prod.snd := by
      rcases foldl_min_mem_or ((writtenPixels s l).map Prod.snd) intMax with h | h
      · omega
      · exact h
    have hmaxx_mem : ((writtenPixels s l).map Prod.fst).foldl max intMin ∈
        (writtenPixels s l).map Prod.fst := by
      rcases foldl_max_mem_or ((writtenPixels s l).map Prod.fst) intMin with h | h
      · omega
      · exact h
    have hmaxy_mem : ((writtenPixels s l).map Prod.snd).foldl max intMin ∈
        (writtenPixels s l).map Prod.snd := by
      rcases foldl_max_mem_or ((writtenPixels s l).map Prod.snd) intMin with h | h
      · omega
      · exact h
    have hrect : assembleRect (areaFold area0 (writtenPixels s l)) ax ay =
        ⟨((writtenPixels s l).map Prod.fst).foldl min intMax,
          ((writtenPixels s l).map Prod.snd).foldl min intMax,
          ((writtenPixels s l).map Prod.fst).foldl max intMin -
            ((writtenPixels s l).map Prod.fst).foldl min intMax + 1,
          ((writtenPixels s l).map Prod.snd).foldl max intMin -
            ((writtenPixels s l).map Prod.snd).foldl min intMax + 1⟩ := by
      unfold assembleRect
      rw [if_pos]
      · rw [hminx, hminy, hmaxx, hmaxy]
      · rw [hminx, hminy, hmaxx, hmaxy]
        refine ⟨?_, ?_, ?_, ?_⟩
        · rcases List.mem_map.1 hminx_mem with ⟨p, hp, hpe⟩
          have := written_coord_bounds s l hs p hp
          omega
        · rcases List.mem_map.1 hminy_mem with ⟨p, hp, hpe⟩
          have := written_coord_bounds s l hs p hp
          omega
        · rcases List.mem_map.1 hmaxx_mem with ⟨p, hp, hpe⟩
          have := written_coord_bounds s l hs p hp
          omega
        · rcases List.mem_map.1 hmaxy_mem with ⟨p, hp, hpe⟩
          have := written_coord_bounds s l hs p hp
          omega
    have hrx : (assembleRect (areaFold area0 (writtenPixels s l)) ax ay).x =
        ((writtenPixels s l).map Prod.fst).foldl min intMax := by rw [hrect]
    have hry : (assembleRect (areaFold area0 (writtenPixels s l)) ax ay).y =
        ((writtenPixels s l).map Prod.snd).foldl min intMax := by rw [hrect]
    have hrw : (assembleRect (areaFold area0 (writtenPixels s l)) ax ay).w =
        ((writtenPixels s l).map Prod.fst).foldl max intMin -
          ((writtenPixels s l).map Prod.fst).foldl min intMax + 1 := by rw [hrect]
    have hrh : (assembleRect (areaFold area0 (writtenPixels s l)) ax ay).h =
        ((writtenPixels s l).map Prod.snd).foldl max intMin -
          ((writtenPixels s l).map Prod.snd).foldl min intMax + 1 := by rw [hrect]
    rw [tightFor, hrx, hry, hrw, hrh]
    refine ⟨?_, ?_, ?_, ?_, ?_⟩
    · intro p hp
      have h1 := foldl_min_le_mem ((writtenPixels s l).map Prod.fst) intMax p.1
        (List.mem_map_of_mem Prod.fst hp)
      have h2 := foldl_min_le_mem ((writtenPixels s l).map Prod.snd) intMax p.2
        (List.mem_map_of_mem Prod.snd hp)
      have h3 := foldl_max_ge_mem ((writtenPixels s l).map Prod.fst) intMin p.1
        (List.mem_map_of_mem Prod.fst hp)
      have h4 := foldl_max_ge_mem ((writtenPixels s l).map Prod.snd) intMin p.2
        (List.mem_map_of_mem Prod.snd hp)
      exact ⟨h1, by omega, h2, by omega⟩
    · rcases List.mem_map.1 hminx_mem with ⟨p, hp, hpe⟩
      exact ⟨p, hp, hpe⟩
    · rcases List.mem_map.1 hmaxx_mem with ⟨p, hp, hpe⟩
      exact ⟨p, hp, by omega⟩
    · rcases List.mem_map.1 hminy_mem with ⟨p, hp, hpe⟩
      exact ⟨p, hp, hpe⟩
    · rcases List.mem_map.1 hmaxy_mem with ⟨p, hp, hpe⟩
      exact ⟨p, hp, by omega⟩

theorem line_prim_run (s : Surf) (c : Nat) (x1 y1 x2 y2 w : Int) (hw : ¬ w < 1) :
    line_prim s c x1 y1 x2 y2 w =
      ((applyWrites c s area0 (line_prim_points w x1 y1 x2 y2)).1,
        assembleRect (applyWrites c s area0 (line_prim_points w x1 y1 x2 y2)).2 x1 y1) := by
  unfold line_prim line_prim_points
  rw [if_neg hw, if_neg hw]

theorem circle_prim_run (s : Surf) (c : Nat) (px py r w : Int)
    (h : ¬ (r < 1 ∨ w < 0)) :
    circle_prim s c px py r w =
      ((applyWrites c s area0 (circle_prim_points px py r w)).1,
        assembleRect (applyWrites c s area0 (circle_prim_points px py r w)).2 px py) := by
  unfold circle_prim circle_prim_points
  rw [if_neg h, if_neg h]

/-- C2: for the line and circle primitives, when at least one pixel is
written the returned rect is the tight bounding box of exactly the written
pixels: every written pixel lies inside it and each border row and column
contains a written pixel (equivalently, the rect is
(min_x, min_y, max_x - min_x + 1, max_y - min_y + 1) over the written
pixels); when nothing is written the returned rect is zero-size at the
primitive's anchor (the line's start point, the circle's center). -/
theorem C2_bounding_box :
    ∀ (s : Surf) (c : Nat), clipOK s →
      (∀ x1 y1 x2 y2 w : Int,
        (writtenPixels s (line_prim_points w x1 y1 x2 y2) = [] →
          (line_prim s c x1 y1 x2 y2 w).2 = ⟨x1, y1, 0, 0⟩) ∧
        (writtenPixels s (line_prim_points w x1 y1 x2 y2) ≠ [] →
          tightFor (line_prim s c x1 y1 x2 y2 w).2
            (writtenPixels s (line_prim_points w x1 y1 x2 y2)))) ∧
      (∀ px py r w : Int,
        (writtenPixels s (circle_prim_points px py r w) = [] →
          (circle_prim s c px py r w).2 = ⟨px, py, 0, 0⟩) ∧
        (writtenPixels s (circle_prim_points px py r w) ≠ [] →
          tightFor (circle_prim s c px py r w).2
            (writtenPixels s (circle_prim_points px py r w)))) := by
  intro s c hs
  constructor
  · intro x1 y1 x2 y2 w
    by_cases hw : w < 1
    · have hpts : line_prim_points w x1 y1 x2 y2 = [] := by
        unfold line_prim_points
        rw [if_pos hw]
      have hlp : line_prim s c x1 y1 x2 y2 w = (s, ⟨x1, y1, 0, 0⟩) := by
        unfold line_prim
        rw [if_pos hw]
      constructor
      · intro _
        rw [hlp]
      · intro hne
        exact absurd (by rw [hpts]; rfl) hne
    · rw [line_prim_run s c x1 y1 x2 y2 w hw]
      exact bbox_of_writes s c (line_prim_points w x1 y1 x2 y2) x1 y1 hs
  · intro px py r w
    by_cases hrw : r < 1 ∨ w < 0
    · have hpts : circle_prim_points px py r w = [] := by
        unfold circle_prim_points
        rw [if_pos hrw]
      have hcp : circle_prim s c px py r w = (s, ⟨px, py, 0, 0⟩) := by
        unfold circle_prim
        rw [if_pos hrw]
      constructor
      · intro _
        rw [hcp]
      · intro hne
        exact absurd (by rw [hpts]; rfl) hne
    · rw [circle_prim_run s c px py r w hrw]
      exact bbox_of_writes s c (circle_prim_points px py r w) px py hs

/-- Witness for C2: on the concrete surface, the horizontal line from
(0, 0) to (2, 0) yields a tight rect over its three written pixels, and an
entirely clipped circle at (20, 20) returns the zero-size rect at its
center. -/
theorem C2_bounding_box_witness :
    tightFor (line_prim demoSurf 1 0 0 2 0 1).2
      (writtenPixels demoSurf (line_prim_points 1 0 0 2 0)) ∧
    (circle_prim demoSurf 1 20 20 2 0).2 = ⟨20, 20, 0, 0⟩ :=
  ⟨((C2_bounding_box demoSurf 1 (by decide)).1 0 0 2 0 1).2 (by decide),
    ((C2_bounding_box demoSurf 1 (by decide)).2 20 20 2 0).1 (by decide)⟩

/-! ## C4 and C5: the Bresenham line rasterizer -/


theorem bresLoop_succ (x2 y2 sx sy dx dy : Int) (n : Nat) (x y err : Int) :
    bresLoop x2 y2 sx sy dx dy (n + 1) x y err =
      if x = x2 ∧ y = y2 then some [(x2, y2)]
      else
        (bresLoop x2 y2 sx sy dx dy n
            (if err > -dx then x + sx else x)
            (if err < dy then y + sy else y)
            ((if err < dy then (if err > -dx then err - dy else err) + dx
              else (if err > -dx then err - dy else err)))).map
          (fun l => (x, y) :: l) := rfl

theorem bresLoop_xmajor (x1 y1 sx sy dx dy : Int)
    (hsx : sx ≠ 0) (hdy : 1 ≤ dy) (hdxy : dy < dx) :
    ∀ (n : Nat) (fuel : Nat) (k j err : Int),
      k + (n : Int) = dx →
      0 ≤ err → err ≤ dx - 1 →
      err = Int.tdiv dx 2 + j * dx - k * dy →
      n + 1 ≤ fuel →
      ∃ l, bresLoop (x1 + sx * dx) (y1 + sy * dy) sx sy dx dy fuel
          (x1 + sx * k) (y1 + sy * j) err = some l ∧
        l.map Prod.fst = (List.range (n + 1)).map (fun t : Nat => x1 + sx * (k + (t : Int))) ∧
        (x1 + sx * dx, y1 + sy * dy) ∈ l ∧
        l ≠ [] ∧ l.headI = (x1 + sx * k, y1 + sy * j) := by
  intro n
  induction n with
  | zero =>
      intro fuel k j err hk h0 h1 he hf
      have hkdx : k = dx := by push_cast at hk; omega
      have hc0 : 0 ≤ Int.tdiv dx 2 := by
        rw [Int.tdiv_eq_ediv (by omega) (by omega)]
        omega
      have hc1 : Int.tdiv dx 2 ≤ dx - 1 := by
        rw [Int.tdiv_eq_ediv (by omega) (by omega)]
        omega
      rw [hkdx] at he
      have hjdy : j = dy := by
        have hle : j ≤ dy := by
          by_contra hcon
          push_neg at hcon
          have h2 : (dy + 1) * dx ≤ j * dx := by
            apply mul_le_mul_of_nonneg_right (by omega) (by omega)
          nlinarith
        have hge : dy ≤ j := by
          by_contra hcon
          push_neg at hcon
          have h2 : j * dx ≤ (dy - 1) * dx := by
            apply mul_le_mul_of_nonneg_right (by omega) (by omega)
          nlinarith
        omega
      rw [hkdx, hjdy]
      obtain ⟨f, rfl⟩ : ∃ f, fuel = f + 1 := ⟨fuel - 1, by omega⟩
      refine ⟨[(x1 + sx * dx, y1 + sy * dy)], ?_, ?_, ?_, ?_, ?_⟩
      · rw [bresLoop_succ, if_pos ⟨rfl, rfl⟩]
      · show _ = List.map (fun t => x1 + sx * (dx + (t : Int))) [0]
        simp
      · simp
      · simp
      · simp
  | succ n ih =>
      intro fuel k j err hk h0 h1 he hf
      have hkdx : k ≠ dx := by push_cast at hk; omega
      obtain ⟨f, rfl⟩ : ∃ f, fuel = f + 1 := ⟨fuel - 1, by omega⟩
      have hne : ¬ (x1 + sx * k = x1 + sx * dx ∧ y1 + sy * j = y1 + sy * dy) := by
        rintro ⟨hx, -⟩
        exact hkdx (mul_left_cancel₀ hsx (by linarith))
      rw [bresLoop_succ, if_neg hne]
      have hxgt : err > -dx := by omega
      simp only [if_pos hxgt]
      by_cases hy : err < dy
      · simp only [if_pos hy]
        have hx2 : x1 + sx * k + sx = x1 + sx * (k + 1) := by ring
        have hy2 : y1 + sy * j + sy = y1 + sy * (j + 1) := by ring
        rw [hx2, hy2]
        obtain ⟨l, hl, hmap, hmem, hlne, hhead⟩ :=
          ih f (k + 1) (j + 1) (err - dy + dx) (by push_cast at hk ⊢; omega)
            (by omega) (by omega) (by rw [he]; ring) (by omega)
        refine ⟨(x1 + sx * k, y1 + sy * j) :: l, ?_, ?_, ?_, ?_, ?_⟩
        · rw [hl]
          rfl
        · rw [List.map_cons, hmap]
          conv_rhs => rw [List.range_succ_eq_map]
          rw [List.map_cons, List.map_map]
          congr 1
          · push_cast
            ring
          · apply List.map_congr_left
            intro t ht
            show x1 + sx * ((k + 1) + (t : Int)) = x1 + sx * (k + ((Nat.succ t : Nat) : Int))
            push_cast
            ring
        · exact List.mem_cons_of_mem _ hmem
        · simp
        · simp
      · simp only [if_neg hy]
        obtain ⟨l, hl, hmap, hmem, hlne, hhead⟩ :=
          ih f (k + 1) j (err - dy) (by push_cast at hk ⊢; omega)
            (by omega) (by omega) (by rw [he]; ring) (by omega)
        have hx2 : x1 + sx * k + sx = x1 + sx * (k + 1) := by ring
        rw [hx2]
        refine ⟨(x1 + sx * k, y1 + sy * j) :: l, ?_, ?_, ?_, ?_, ?_⟩
        · rw [hl]
          rfl
        · rw [List.map_cons, hmap]
          conv_rhs => rw [List.range_succ_eq_map]
          rw [List.map_cons, List.map_map]
          congr 1
          · push_cast
            ring
          · apply List.map_congr_left
            intro t ht
            show x1 + sx * ((k + 1) + (t : Int)) = x1 + sx * (k + ((Nat.succ t : Nat) : Int))
            push_cast
            ring
        · exact List.mem_cons_of_mem _ hmem
        · simp
        · simp

theorem bresLoop_ymajor (x1 y1 sx sy dx dy : Int)
    (hsy : sy ≠ 0) (hdx : 1 ≤ dx) (hdxy : dx < dy) :
    ∀ (n : Nat) (fuel : Nat) (k i err : Int),
      k + (n : Int) = dy →
      1 - dy ≤ err → err ≤ 0 →
      err = -(Int.tdiv dy 2) + k * dx - i * dy →
      n + 1 ≤ fuel →
      ∃ l, bresLoop (x1 + sx * dx) (y1 + sy * dy) sx sy dx dy fuel
          (x1 + sx * i) (y1 + sy * k) err = some l ∧
        l.map Prod.snd = (List.range (n + 1)).map (fun t : Nat => y1 + sy * (k + (t : Int))) ∧
        (x1 + sx * dx, y1 + sy * dy) ∈ l ∧
        l ≠ [] ∧ l.headI = (x1 + sx * i, y1 + sy * k) := by
  intro n
  induction n with
  | zero =>
      intro fuel k i err hk h0 h1 he hf
      have hkdy : k = dy := by push_cast at hk; omega
      rw [hkdy] at he
      have hc0 : 0 ≤ Int.tdiv dy 2 := by
        rw [Int.tdiv_eq_ediv (by omega) (by omega)]
        omega
      have hc1 : Int.tdiv dy 2 ≤ dy - 1 := by
        rw [Int.tdiv_eq_ediv (by omega) (by omega)]
        omega
      have hidx : i = dx := by
        have hle : i ≤ dx := by
          by_contra hcon
          push_neg at hcon
          have h2 : (dx + 1) * dy ≤ i * dy := by
            apply mul_le_mul_of_nonneg_right (by omega) (by omega)
          nlinarith
        have hge : dx ≤ i := by
          by_contra hcon
          push_neg at hcon
          have h2 : i * dy ≤ (dx - 1) * dy := by
            apply mul_le_mul_of_nonneg_right (by omega) (by omega)
          nlinarith
        omega
      rw [hkdy, hidx]
      obtain ⟨f, rfl⟩ : ∃ f, fuel = f + 1 := ⟨fuel - 1, by omega⟩
      refine ⟨[(x1 + sx * dx, y1 + sy * dy)], ?_, ?_, ?_, ?_, ?_⟩
      · rw [bresLoop_succ, if_pos ⟨rfl, rfl⟩]
      · show _ = List.map (fun t => y1 + sy * (dy + (t : Int))) [0]
        simp
      · simp
      · simp
      · simp
  | succ n ih =>
      intro fuel k i err hk h0 h1 he hf
      have hkdy : k ≠ dy := by push_cast at hk; omega
      obtain ⟨f, rfl⟩ : ∃ f, fuel = f + 1 := ⟨fuel - 1, by omega⟩
      have hne : ¬ (x1 + sx * i = x1 + sx * dx ∧ y1 + sy * k = y1 + sy * dy) := by
        rintro ⟨-, hyy⟩
        exact hkdy (mul_left_cancel₀ hsy (by linarith))
      rw [bresLoop_succ, if_neg hne]
      have hylt : err < dy := by omega
      simp only [if_pos hylt]
      have hy2 : y1 + sy * k + sy = y1 + sy * (k + 1) := by ring
      rw [hy2]
      by_cases hx : err > -dx
      · simp only [if_pos hx]
        have hx2 : x1 + sx * i + sx = x1 + sx * (i + 1) := by ring
        rw [hx2]
        obtain ⟨l, hl, hmap, hmem, hlne, hhead⟩ :=
          ih f (k + 1) (i + 1) (err - dy + dx) (by push_cast at hk ⊢; omega)
            (by omega) (by omega) (by rw [he]; ring) (by omega)
        refine ⟨(x1 + sx * i, y1 + sy * k) :: l, ?_, ?_, ?_, ?_, ?_⟩
        · rw [hl]
          rfl
        · rw [List.map_cons, hmap]
          conv_rhs => rw [List.range_succ_eq_map]
          rw [List.map_cons, List.map_map]
          congr 1
          · push_cast
            ring
          · apply List.map_congr_left
            intro t ht
            show y1 + sy * ((k + 1) + (t : Int)) = y1 + sy * (k + ((Nat.succ t : Nat) : Int))
            push_cast
            ring
        · exact List.mem_cons_of_mem _ hmem
        · simp
        · simp
      · simp only [if_neg hx]
        obtain ⟨l, hl, hmap, hmem, hlne, hhead⟩ :=
          ih f (k + 1) i (err + dx) (by push_cast at hk ⊢; omega)
            (by omega) (by omega) (by rw [he]; ring) (by omega)
        refine ⟨(x1 + sx * i, y1 + sy * k) :: l, ?_, ?_, ?_, ?_, ?_⟩
        · rw [hl]
          rfl
        · rw [List.map_cons, hmap]
          conv_rhs => rw [List.range_succ_eq_map]
          rw [List.map_cons, List.map_map]
          congr 1
          · push_cast
            ring
          · apply List.map_congr_left
            intro t ht
            show y1 + sy * ((k + 1) + (t : Int)) = y1 + sy * (k + ((Nat.succ t : Nat) : Int))
            push_cast
            ring
        · exact List.mem_cons_of_mem _ hmem
        · simp
        · simp

theorem bresLoop_diag (x1 y1 sx sy dx dy : Int)
    (hsy : sy ≠ 0) (hd : 1 ≤ dy) (hdd : dx = dy) :
    ∀ (n : Nat) (fuel : Nat) (k : Int),
      k + (n : Int) = dy →
      n + 1 ≤ fuel →
      bresLoop (x1 + sx * dx) (y1 + sy * dy) sx sy dx dy fuel
          (x1 + sx * k) (y1 + sy * k) (-(Int.tdiv dy 2)) =
        some ((List.range (n + 1)).map
          (fun t : Nat => (x1 + sx * (k + (t : Int)), y1 + sy * (k + (t : Int))))) := by
  subst hdd
  intro n
  have hc0 : 0 ≤ Int.tdiv dx 2 := by
    rw [Int.tdiv_eq_ediv (by omega) (by omega)]
    omega
  have hc1 : Int.tdiv dx 2 ≤ dx - 1 := by
    rw [Int.tdiv_eq_ediv (by omega) (by omega)]
    omega
  induction n with
  | zero =>
      intro fuel k hk hf
      have hkd : k = dx := by push_cast at hk; omega
      rw [hkd]
      obtain ⟨f, rfl⟩ : ∃ f, fuel = f + 1 := ⟨fuel - 1, by omega⟩
      rw [bresLoop_succ, if_pos ⟨rfl, rfl⟩]
      show _ = some (List.map (fun t : Nat =>
        (x1 + sx * (dx + (t : Int)), y1 + sy * (dx + (t : Int)))) [0])
      simp
  | succ n ih =>
      intro fuel k hk hf
      have hkd : k ≠ dx := by push_cast at hk; omega
      obtain ⟨f, rfl⟩ : ∃ f, fuel = f + 1 := ⟨fuel - 1, by omega⟩
      have hne : ¬ (x1 + sx * k = x1 + sx * dx ∧ y1 + sy * k = y1 + sy * dx) := by
        rintro ⟨-, hyy⟩
        exact hkd (mul_left_cancel₀ hsy (by linarith))
      rw [bresLoop_succ, if_neg hne]
      have hgt : -(Int.tdiv dx 2) > -dx := by omega
      have hlt : -(Int.tdiv dx 2) < dx := by omega
      simp only [if_pos hgt, if_pos hlt]
      have hx2 : x1 + sx * k + sx = x1 + sx * (k + 1) := by ring
      have hy2 : y1 + sy * k + sy = y1 + sy * (k + 1) := by ring
      have herr : -(Int.tdiv dx 2) - dx + dx = -(Int.tdiv dx 2) := by ring
      rw [hx2, hy2, herr, ih f (k + 1) (by push_cast at hk ⊢; omega) (by omega)]
      show some ((x1 + sx * k, y1 + sy * k) ::
        (List.range (n + 1)).map (fun t : Nat =>
          (x1 + sx * ((k + 1) + (t : Int)), y1 + sy * ((k + 1) + (t : Int))))) = _
      refine congrArg some ?_
      conv_rhs => rw [List.range_succ_eq_map]
      rw [List.map_cons, List.map_map]
      refine List.cons_eq_cons.mpr ⟨?_, ?_⟩
      · simp
      · apply List.map_congr_left
        intro t ht
        show ((x1 + sx * ((k + 1) + (t : Int)), y1 + sy * ((k + 1) + (t : Int))) : Int × Int) =
          (x1 + sx * (k + ((Nat.succ t : Nat) : Int)), y1 + sy * (k + ((Nat.succ t : Nat) : Int)))
        push_cast
        simp only [Prod.mk.injEq]
        constructor <;> ring

theorem sign_abs_eq (a b : Int) :
    b = a + (if a < b then 1 else -1) * ((b - a).natAbs : Int) := by
  split <;> omega

theorem nodup_affRange (a s : Int) (hs : s ≠ 0) (n : Nat) :
    ((List.range n).map (fun t : Nat => a + s * (t : Int))).Nodup := by
  refine List.Nodup.map ?_ (List.nodup_range _)
  intro t u h
  exact Nat.cast_injective (mul_left_cancel₀ hs (add_left_cancel h))

theorem mem_affRange_char (a s : Int) (m : Nat) (hs : s = 1 ∨ s = -1) (cc : Int) :
    cc ∈ (List.range (m + 1)).map (fun t : Nat => a + s * (t : Int)) ↔
      min a (a + s * (m : Int)) ≤ cc ∧ cc ≤ max a (a + s * (m : Int)) := by
  rw [List.mem_map]
  constructor
  · rintro ⟨t, ht, rfl⟩
    rw [List.mem_range] at ht
    rcases hs with rfl | rfl <;> omega
  · intro h
    rcases hs with rfl | rfl
    · exact ⟨(cc - a).toNat, by rw [List.mem_range]; omega, by omega⟩
    · exact ⟨(a - cc).toNat, by rw [List.mem_range]; omega, by omega⟩

theorem draw_line_points_point (x1 y1 : Int) :
    draw_line_points x1 y1 x1 y1 = [(x1, y1)] := by
  unfold draw_line_points
  rw [if_pos ⟨rfl, rfl⟩]

theorem draw_line_points_horiz (x1 y1 x2 : Int) (hx : x1 ≠ x2) :
    draw_line_points x1 y1 x2 y1 =
      (List.range ((x1 - x2).natAbs + 1)).map
        (fun k : Nat => (x1 + (if x1 < x2 then 1 else -1) * (k : Int), y1)) := by
  unfold draw_line_points
  rw [if_neg (by tauto), if_pos rfl]

theorem draw_line_points_vert (x1 y1 y2 : Int) (hy : y1 ≠ y2) :
    draw_line_points x1 y1 x1 y2 =
      (List.range ((y1 - y2).natAbs + 1)).map
        (fun k : Nat => (x1, y1 + (if y1 < y2 then 1 else -1) * (k : Int))) := by
  unfold draw_line_points
  rw [if_neg (by tauto), if_neg hy, if_pos rfl]

theorem draw_line_points_general (x1 y1 x2 y2 : Int) (hx : x1 ≠ x2) (hy : y1 ≠ y2)
    (l : List (Int × Int))
    (hl : bresLoop x2 y2 (if x1 < x2 then 1 else -1) (if y1 < y2 then 1 else -1)
        (((x2 - x1).natAbs : Int)) (((y2 - y1).natAbs : Int))
        (bresFuel x1 y1 x2 y2) x1 y1
        (Int.tdiv (if (((x2 - x1).natAbs : Int)) > (((y2 - y1).natAbs : Int))
          then (((x2 - x1).natAbs : Int)) else -(((y2 - y1).natAbs : Int))) 2) = some l) :
    draw_line_points x1 y1 x2 y2 = l := by
  unfold draw_line_points
  rw [if_neg (by tauto), if_neg hy, if_neg hx, hl]

theorem headI_mem_of_ne_nil (l : List (Int × Int)) (h : l ≠ []) : l.headI ∈ l := by
  cases l with
  | nil => exact absurd rfl h
  | cons a t => exact List.mem_cons_self a t

theorem mem_affPairRange (a b s u : Int) (n : Nat) (t : Nat) (ht : t < n + 1) :
    (a + s * (t : Int), b + u * (t : Int)) ∈
      (List.range (n + 1)).map (fun t : Nat => (a + s * (t : Int), b + u * (t : Int))) :=
  List.mem_map_of_mem _ (List.mem_range.2 ht)

theorem draw_line_char (x1 y1 x2 y2 : Int) :
    (x1, y1) ∈ draw_line_points x1 y1 x2 y2 ∧
    (x2, y2) ∈ draw_line_points x1 y1 x2 y2 ∧
    (draw_line_points x1 y1 x2 y2).Nodup ∧
    ((y2 - y1).natAbs ≤ (x2 - x1).natAbs →
      ((draw_line_points x1 y1 x2 y2).map Prod.fst).Nodup ∧
      (∀ cc : Int, cc ∈ (draw_line_points x1 y1 x2 y2).map Prod.fst ↔
        min x1 x2 ≤ cc ∧ cc ≤ max x1 x2)) ∧
    ((x2 - x1).natAbs ≤ (y2 - y1).natAbs →
      ((draw_line_points x1 y1 x2 y2).map Prod.snd).Nodup ∧
      (∀ rr : Int, rr ∈ (draw_line_points x1 y1 x2 y2).map Prod.snd ↔
        min y1 y2 ≤ rr ∧ rr ≤ max y1 y2)) := by
  by_cases hp : x1 = x2 ∧ y1 = y2
  · obtain ⟨rfl, rfl⟩ := hp
    rw [draw_line_points_point]
    refine ⟨by simp, by simp, by simp, ?_, ?_⟩
    · intro _
      refine ⟨by simp, ?_⟩
      intro cc
      simp
      omega
    · intro _
      refine ⟨by simp, ?_⟩
      intro rr
      simp
      omega
  · by_cases hy : y1 = y2
    · have hx : x1 ≠ x2 := fun hxx => hp ⟨hxx, hy⟩
      subst hy
      rw [draw_line_points_horiz x1 y1 x2 hx]
      have hs : (if x1 < x2 then (1 : Int) else -1) = 1 ∨
          (if x1 < x2 then (1 : Int) else -1) = -1 := by
        split
        · exact Or.inl rfl
        · exact Or.inr rfl
      have hs0 : (if x1 < x2 then (1 : Int) else -1) ≠ 0 := by
        rcases hs with h | h <;> rw [h] <;> omega
      have he2 : x1 + (if x1 < x2 then (1 : Int) else -1) * (((x1 - x2).natAbs : Nat) : Int)
          = x2 := by
        split <;> omega
      have hmap : ((List.range ((x1 - x2).natAbs + 1)).map
            (fun k : Nat => (x1 + (if x1 < x2 then (1 : Int) else -1) * (k : Int), y1))).map
            Prod.fst =
          (List.range ((x1 - x2).natAbs + 1)).map
            (fun k : Nat => x1 + (if x1 < x2 then (1 : Int) else -1) * (k : Int)) := by
        rw [List.map_map]
        rfl
      refine ⟨?_, ?_, ?_, ?_, ?_⟩
      · have h0 := mem_affPairRange x1 y1 (if x1 < x2 then (1 : Int) else -1) 0
          ((x1 - x2).natAbs) 0 (by omega)
        simpa using h0
      · have h0 := mem_affPairRange x1 y1 (if x1 < x2 then (1 : Int) else -1) 0
          ((x1 - x2).natAbs) ((x1 - x2).natAbs) (by omega)
        simp only [zero_mul, add_zero] at h0
        rw [he2] at h0
        exact h0
      · exact List.Nodup.of_map Prod.fst (hmap ▸ nodup_affRange x1 _ hs0 _)
      · intro _
        refine ⟨hmap ▸ nodup_affRange x1 _ hs0 _, ?_⟩
        intro cc
        rw [hmap, mem_affRange_char x1 _ ((x1 - x2).natAbs) hs cc, he2]
      · intro hcon
        exfalso
        omega
    · by_cases hx : x1 = x2
      · have hyy : y1 ≠ y2 := hy
        subst hx
        rw [draw_line_points_vert x1 y1 y2 hyy]
        have hs : (if y1 < y2 then (1 : Int) else -1) = 1 ∨
            (if y1 < y2 then (1 : Int) else -1) = -1 := by
          split
          · exact Or.inl rfl
          · exact Or.inr rfl
        have hs0 : (if y1 < y2 then (1 : Int) else -1) ≠ 0 := by
          rcases hs with h | h <;> rw [h] <;> omega
        have he2 : y1 + (if y1 < y2 then (1 : Int) else -1) * (((y1 - y2).natAbs : Nat) : Int)
            = y2 := by
          split <;> omega
        have hmap : ((List.range ((y1 - y2).natAbs + 1)).map
              (fun k : Nat => (x1, y1 + (if y1 < y2 then (1 : Int) else -1) * (k : Int)))).map
              Prod.snd =
            (List.range ((y1 - y2).natAbs + 1)).map
              (fun k : Nat => y1 + (if y1 < y2 then (1 : Int) else -1) * (k : Int)) := by
          rw [List.map_map]
          rfl
        refine ⟨?_, ?_, ?_, ?_, ?_⟩
        · have h0 := mem_affPairRange x1 y1 0 (if y1 < y2 then (1 : Int) else -1)
            ((y1 - y2).natAbs) 0 (by omega)
          simpa using h0
        · have h0 := mem_affPairRange x1 y1 0 (if y1 < y2 then (1 : Int) else -1)
            ((y1 - y2).natAbs) ((y1 - y2).natAbs) (by omega)
          simp only [zero_mul, add_zero] at h0
          rw [he2] at h0
          exact h0
        · exact List.Nodup.of_map Prod.snd (hmap ▸ nodup_affRange y1 _ hs0 _)
        · intro hcon
          exfalso
          omega
        · intro _
          refine ⟨hmap ▸ nodup_affRange y1 _ hs0 _, ?_⟩
          intro rr
          rw [hmap, mem_affRange_char y1 _ ((y1 - y2).natAbs) hs rr, he2]
      · -- general case: x1 differs from x2 and y1 differs from y2
        have hdx1 : 1 ≤ (x2 - x1).natAbs := by omega
        have hdy1 : 1 ≤ (y2 - y1).natAbs := by omega
        have hsx : (if x1 < x2 then (1 : Int) else -1) = 1 ∨
            (if x1 < x2 then (1 : Int) else -1) = -1 := by
          split
          · exact Or.inl rfl
          · exact Or.inr rfl
        have hsy : (if y1 < y2 then (1 : Int) else -1) = 1 ∨
            (if y1 < y2 then (1 : Int) else -1) = -1 := by
          split
          · exact Or.inl rfl
          · exact Or.inr rfl
        have hsx0 : (if x1 < x2 then (1 : Int) else -1) ≠ 0 := by
          rcases hsx with h | h <;> rw [h] <;> omega
        have hsy0 : (if y1 < y2 then (1 : Int) else -1) ≠ 0 := by
          rcases hsy with h | h <;> rw [h] <;> omega
        have hex : x1 + (if x1 < x2 then (1 : Int) else -1) * (((x2 - x1).natAbs : Nat) : Int)
            = x2 := by
          split <;> omega
        have hey : y1 + (if y1 < y2 then (1 : Int) else -1) * (((y2 - y1).natAbs : Nat) : Int)
            = y2 := by
          split <;> omega
        rcases lt_trichotomy ((y2 - y1).natAbs) ((x2 - x1).natAbs) with hmaj | heq | hmaj
        · -- x-major
          obtain ⟨l, hl, hmap, hmem2, hlne, hhead⟩ :=
            bresLoop_xmajor x1 y1 (if x1 < x2 then 1 else -1) (if y1 < y2 then 1 else -1)
              ((x2 - x1).natAbs : Int) ((y2 - y1).natAbs : Int) hsx0 (by omega) (by omega)
              ((x2 - x1).natAbs) (bresFuel x1 y1 x2 y2) 0 0
              (Int.tdiv ((x2 - x1).natAbs : Int) 2)
              (by omega)
              (by rw [Int.tdiv_eq_ediv (by omega) (by omega)]; omega)
              (by rw [Int.tdiv_eq_ediv (by omega) (by omega)]; omega)
              (by ring)
              (by unfold bresFuel; omega)
          have e1 : x1 + (if x1 < x2 then (1 : Int) else -1) * (0 : Int) = x1 := by ring
          have e2 : y1 + (if y1 < y2 then (1 : Int) else -1) * (0 : Int) = y1 := by ring
          rw [e1, e2, hex, hey] at hl
          rw [e1, e2] at hhead
          rw [hex, hey] at hmem2
          have hif : Int.tdiv ((x2 - x1).natAbs : Int) 2 =
              Int.tdiv (if ((x2 - x1).natAbs : Int) > ((y2 - y1).natAbs : Int)
                then ((x2 - x1).natAbs : Int) else -((y2 - y1).natAbs : Int)) 2 := by
            rw [if_pos (by omega)]
          rw [hif] at hl
          have hdlp := draw_line_points_general x1 y1 x2 y2 hx hy l hl
          rw [hdlp]
          have hmap2 : l.map Prod.fst = (List.range ((x2 - x1).natAbs + 1)).map
              (fun t : Nat => x1 + (if x1 < x2 then (1 : Int) else -1) * (t : Int)) := by
            rw [hmap]
            apply List.map_congr_left
            intro t ht
            simp
          refine ⟨?_, hmem2, ?_, ?_, ?_⟩
          · have := headI_mem_of_ne_nil l hlne
            rw [hhead] at this
            exact this
          · exact List.Nodup.of_map Prod.fst (hmap2 ▸ nodup_affRange x1 _ hsx0 _)
          · intro _
            refine ⟨hmap2 ▸ nodup_affRange x1 _ hsx0 _, ?_⟩
            intro cc
            rw [hmap2, mem_affRange_char x1 _ ((x2 - x1).natAbs) hsx cc, hex]
          · intro hcon
            exfalso
            omega
        · -- diagonal
          have hneg : Int.tdiv (if ((x2 - x1).natAbs : Int) > ((y2 - y1).natAbs : Int)
              then ((x2 - x1).natAbs : Int) else -((y2 - y1).natAbs : Int)) 2 =
              -(Int.tdiv ((y2 - y1).natAbs : Int) 2) := by
            rw [if_neg (by omega)]
            exact Int.neg_tdiv _ _
          have hdia := bresLoop_diag x1 y1 (if x1 < x2 then 1 else -1)
            (if y1 < y2 then 1 else -1) ((x2 - x1).natAbs : Int) ((y2 - y1).natAbs : Int)
            hsy0 (by omega) (by omega)
            ((y2 - y1).natAbs) (bresFuel x1 y1 x2 y2) 0 (by omega)
            (by unfold bresFuel; omega)
          have e1 : x1 + (if x1 < x2 then (1 : Int) else -1) * (0 : Int) = x1 := by ring
          have e2 : y1 + (if y1 < y2 then (1 : Int) else -1) * (0 : Int) = y1 := by ring
          have hlist : ((List.range ((y2 - y1).natAbs + 1)).map
                (fun t : Nat => (x1 + (if x1 < x2 then (1 : Int) else -1) * ((0 : Int) + (t : Int)),
                  y1 + (if y1 < y2 then (1 : Int) else -1) * ((0 : Int) + (t : Int))))) =
              ((List.range ((y2 - y1).natAbs + 1)).map
                (fun t : Nat => (x1 + (if x1 < x2 then (1 : Int) else -1) * (t : Int),
                  y1 + (if y1 < y2 then (1 : Int) else -1) * (t : Int)))) := by
            apply List.map_congr_left
            intro t ht
            simp
          rw [e1, e2, hex, hey, hlist] at hdia
          have hdlp := draw_line_points_general x1 y1 x2 y2 hx hy _ (by
            rw [hneg]
            exact hdia)
          rw [hdlp]
          have hex2 : x1 + (if x1 < x2 then (1 : Int) else -1) * (((y2 - y1).natAbs : Nat) : Int)
              = x2 := by
            rw [show (((y2 - y1).natAbs : Nat) : Int) = (((x2 - x1).natAbs : Nat) : Int)
              by omega]
            exact hex
          have hfst : (((List.range ((y2 - y1).natAbs + 1)).map
                (fun t : Nat => (x1 + (if x1 < x2 then (1 : Int) else -1) * (t : Int),
                  y1 + (if y1 < y2 then (1 : Int) else -1) * (t : Int))))).map Prod.fst =
              (List.range ((y2 - y1).natAbs + 1)).map
                (fun t : Nat => x1 + (if x1 < x2 then (1 : Int) else -1) * (t : Int)) := by
            rw [List.map_map]
            rfl
          have hsnd : (((List.range ((y2 - y1).natAbs + 1)).map
                (fun t : Nat => (x1 + (if x1 < x2 then (1 : Int) else -1) * (t : Int),
                  y1 + (if y1 < y2 then (1 : Int) else -1) * (t : Int))))).map Prod.snd =
              (List.range ((y2 - y1).natAbs + 1)).map
                (fun t : Nat => y1 + (if y1 < y2 then (1 : Int) else -1) * (t : Int)) := by
            rw [List.map_map]
            rfl
          refine ⟨?_, ?_, ?_, ?_, ?_⟩
          · refine List.mem_map.2 ⟨0, List.mem_range.2 (by omega), ?_⟩
            simp
          · refine List.mem_map.2 ⟨(y2 - y1).natAbs, List.mem_range.2 (by omega), ?_⟩
            show (x1 + _ * _, y1 + _ * _) = (x2, y2)
            rw [hex2, hey]
          · exact List.Nodup.of_map Prod.fst (hfst ▸ nodup_affRange x1 _ hsx0 _)
          · intro _
            refine ⟨hfst ▸ nodup_affRange x1 _ hsx0 _, ?_⟩
            intro cc
            rw [hfst, mem_affRange_char x1 _ ((y2 - y1).natAbs) hsx cc, hex2]
          · intro _
            refine ⟨hsnd ▸ nodup_affRange y1 _ hsy0 _, ?_⟩
            intro rr
            rw [hsnd, mem_affRange_char y1 _ ((y2 - y1).natAbs) hsy rr, hey]
        · -- y-major
          obtain ⟨l, hl, hmap, hmem2, hlne, hhead⟩ :=
            bresLoop_ymajor x1 y1 (if x1 < x2 then 1 else -1) (if y1 < y2 then 1 else -1)
              ((x2 - x1).natAbs : Int) ((y2 - y1).natAbs : Int) hsy0 (by omega) (by omega)
              ((y2 - y1).natAbs) (bresFuel x1 y1 x2 y2) 0 0
              (-(Int.tdiv ((y2 - y1).natAbs : Int) 2))
              (by omega)
              (by rw [Int.tdiv_eq_ediv (by omega) (by omega)]; omega)
              (by rw [Int.tdiv_eq_ediv (by omega) (by omega)]; omega)
              (by ring)
              (by unfold bresFuel; omega)
          have e1 : x1 + (if x1 < x2 then (1 : Int) else -1) * (0 : Int) = x1 := by ring
          have e2 : y1 + (if y1 < y2 then (1 : Int) else -1) * (0 : Int) = y1 := by ring
          rw [e1, e2, hex, hey] at hl
          rw [e1, e2] at hhead
          rw [hex, hey] at hmem2
          have hif : -(Int.tdiv ((y2 - y1).natAbs : Int) 2) =
              Int.tdiv (if ((x2 - x1).natAbs : Int) > ((y2 - y1).natAbs : Int)
                then ((x2 - x1).natAbs : Int) else -((y2 - y1).natAbs : Int)) 2 := by
            rw [if_neg (by omega)]
            exact (Int.neg_tdiv _ _).symm
          rw [hif] at hl
          have hdlp := draw_line_points_general x1 y1 x2 y2 hx hy l hl
          rw [hdlp]
          have hmap2 : l.map Prod.snd = (List.range ((y2 - y1).natAbs + 1)).map
              (fun t : Nat => y1 + (if y1 < y2 then (1 : Int) else -1) * (t : Int)) := by
            rw [hmap]
            apply List.map_congr_left
            intro t ht
            simp
          refine ⟨?_, hmem2, ?_, ?_, ?_⟩
          · have := headI_mem_of_ne_nil l hlne
            rw [hhead] at this
            exact this
          · exact List.Nodup.of_map Prod.snd (hmap2 ▸ nodup_affRange y1 _ hsy0 _)
          · intro hcon
            exfalso
            omega
          · intro _
            refine ⟨hmap2 ▸ nodup_affRange y1 _ hsy0 _, ?_⟩
            intro rr
            rw [hmap2, mem_affRange_char y1 _ ((y2 - y1).natAbs) hsy rr, hey]

theorem dlw_one (x1 y1 x2 y2 : Int) :
    draw_line_width_points 1 x1 y1 x2 y2 = draw_line_points x1 y1 x2 y2 := by
  unfold draw_line_width_points
  rw [if_neg (by omega)]
  exact List.append_nil _

theorem mem_horiz_char (a b s : Int) (n : Nat) (hs : s = 1 ∨ s = -1) (p : Int × Int) :
    p ∈ (List.range (n + 1)).map (fun k : Nat => (a + s * (k : Int), b)) ↔
      p.2 = b ∧ min a (a + s * (n : Int)) ≤ p.1 ∧ p.1 ≤ max a (a + s * (n : Int)) := by
  rw [List.mem_map]
  constructor
  · rintro ⟨t, ht, rfl⟩
    rw [List.mem_range] at ht
    rcases hs with rfl | rfl
    · exact ⟨rfl, by omega, by omega⟩
    · exact ⟨rfl, by omega, by omega⟩
  · rintro ⟨h2, hb1, hb2⟩
    rcases hs with rfl | rfl
    · exact ⟨(p.1 - a).toNat, List.mem_range.2 (by omega),
        Prod.ext_iff.2 ⟨by omega, h2.symm⟩⟩
    · exact ⟨(a - p.1).toNat, List.mem_range.2 (by omega),
        Prod.ext_iff.2 ⟨by omega, h2.symm⟩⟩

theorem mem_vert_char (a b s : Int) (n : Nat) (hs : s = 1 ∨ s = -1) (p : Int × Int) :
    p ∈ (List.range (n + 1)).map (fun k : Nat => (a, b + s * (k : Int))) ↔
      p.1 = a ∧ min b (b + s * (n : Int)) ≤ p.2 ∧ p.2 ≤ max b (b + s * (n : Int)) := by
  rw [List.mem_map]
  constructor
  · rintro ⟨t, ht, rfl⟩
    rw [List.mem_range] at ht
    rcases hs with rfl | rfl
    · exact ⟨rfl, by omega, by omega⟩
    · exact ⟨rfl, by omega, by omega⟩
  · rintro ⟨h2, hb1, hb2⟩
    rcases hs with rfl | rfl
    · exact ⟨(p.2 - b).toNat, List.mem_range.2 (by omega),
        Prod.ext_iff.2 ⟨h2.symm, by omega⟩⟩
    · exact ⟨(b - p.2).toNat, List.mem_range.2 (by omega),
        Prod.ext_iff.2 ⟨h2.symm, by omega⟩⟩

theorem mem_diag_char (a b s u : Int) (n : Nat) (p : Int × Int) :
    p ∈ (List.range (n + 1)).map
        (fun t : Nat => (a + s * (t : Int), b + u * (t : Int))) ↔
      ∃ t : Nat, t ≤ n ∧ p.1 = a + s * (t : Int) ∧ p.2 = b + u * (t : Int) := by
  rw [List.mem_map]
  constructor
  · rintro ⟨t, ht, rfl⟩
    rw [List.mem_range] at ht
    exact ⟨t, by omega, rfl, rfl⟩
  · rintro ⟨t, ht, h1, h2⟩
    exact ⟨t, List.mem_range.2 (by omega), Prod.ext_iff.2 ⟨h1.symm, h2.symm⟩⟩

theorem draw_line_points_diag (x1 y1 x2 y2 : Int) (hx : x1 ≠ x2) (hy : y1 ≠ y2)
    (heq : (y2 - y1).natAbs = (x2 - x1).natAbs) :
    draw_line_points x1 y1 x2 y2 = (List.range ((y2 - y1).natAbs + 1)).map
      (fun t : Nat => (x1 + (if x1 < x2 then (1 : Int) else -1) * (t : Int),
        y1 + (if y1 < y2 then (1 : Int) else -1) * (t : Int))) := by
  have hdy1 : 1 ≤ (y2 - y1).natAbs := by omega
  have hsy0 : (if y1 < y2 then (1 : Int) else -1) ≠ 0 := by
    split <;> omega
  have hex : x1 + (if x1 < x2 then (1 : Int) else -1) * (((x2 - x1).natAbs : Nat) : Int)
      = x2 := by
    split <;> omega
  have hey : y1 + (if y1 < y2 then (1 : Int) else -1) * (((y2 - y1).natAbs : Nat) : Int)
      = y2 := by
    split <;> omega
  have hneg : Int.tdiv (if ((x2 - x1).natAbs : Int) > ((y2 - y1).natAbs : Int)
      then ((x2 - x1).natAbs : Int) else -((y2 - y1).natAbs : Int)) 2 =
      -(Int.tdiv ((y2 - y1).natAbs : Int) 2) := by
    rw [if_neg (by omega)]
    exact Int.neg_tdiv _ _
  have hdia := bresLoop_diag x1 y1 (if x1 < x2 then 1 else -1)
    (if y1 < y2 then 1 else -1) ((x2 - x1).natAbs : Int) ((y2 - y1).natAbs : Int)
    hsy0 (by omega) (by omega)
    ((y2 - y1).natAbs) (bresFuel x1 y1 x2 y2) 0 (by omega)
    (by unfold bresFuel; omega)
  have e1 : x1 + (if x1 < x2 then (1 : Int) else -1) * (0 : Int) = x1 := by ring
  have e2 : y1 + (if y1 < y2 then (1 : Int) else -1) * (0 : Int) = y1 := by ring
  have hlist : ((List.range ((y2 - y1).natAbs + 1)).map
        (fun t : Nat => (x1 + (if x1 < x2 then (1 : Int) else -1) * ((0 : Int) + (t : Int)),
          y1 + (if y1 < y2 then (1 : Int) else -1) * ((0 : Int) + (t : Int))))) =
      ((List.range ((y2 - y1).natAbs + 1)).map
        (fun t : Nat => (x1 + (if x1 < x2 then (1 : Int) else -1) * (t : Int),
          y1 + (if y1 < y2 then (1 : Int) else -1) * (t : Int)))) := by
    apply List.map_congr_left
    intro t ht
    simp
  rw [e1, e2, hex, hey, hlist] at hdia
  exact draw_line_points_general x1 y1 x2 y2 hx hy _ (by rw [hneg]; exact hdia)

/-- C4: draw_line writes both endpoints, writes exactly one pixel per
major-axis coordinate between the endpoints inclusive (stated as: the
major-axis projection of the emission list is duplicate-free and covers
exactly the coordinates between the endpoints) and visits no pixel twice. -/
theorem C4_draw_line_exact :
    ∀ x1 y1 x2 y2 : Int,
      (x1, y1) ∈ draw_line_points x1 y1 x2 y2 ∧
      (x2, y2) ∈ draw_line_points x1 y1 x2 y2 ∧
      (draw_line_points x1 y1 x2 y2).Nodup ∧
      ((y2 - y1).natAbs ≤ (x2 - x1).natAbs →
        ((draw_line_points x1 y1 x2 y2).map Prod.fst).Nodup ∧
        (∀ cc : Int, cc ∈ (draw_line_points x1 y1 x2 y2).map Prod.fst ↔
          min x1 x2 ≤ cc ∧ cc ≤ max x1 x2)) ∧
      ((x2 - x1).natAbs ≤ (y2 - y1).natAbs →
        ((draw_line_points x1 y1 x2 y2).map Prod.snd).Nodup ∧
        (∀ rr : Int, rr ∈ (draw_line_points x1 y1 x2 y2).map Prod.snd ↔
          min y1 y2 ≤ rr ∧ rr ≤ max y1 y2)) :=
  fun x1 y1 x2 y2 => draw_line_char x1 y1 x2 y2

/-- Witness for C4 at the line from (0, 0) to (4, 1): endpoints written, no
duplicate pixel, and column 2 is covered exactly once. -/
theorem C4_draw_line_exact_witness :
    ((0 : Int), (0 : Int)) ∈ draw_line_points 0 0 4 1 ∧
    ((4 : Int), (1 : Int)) ∈ draw_line_points 0 0 4 1 ∧
    (draw_line_points 0 0 4 1).Nodup ∧
    ((draw_line_points 0 0 4 1).map Prod.fst).Nodup ∧
    ((2 : Int) ∈ (draw_line_points 0 0 4 1).map Prod.fst ↔
      min (0 : Int) 4 ≤ 2 ∧ (2 : Int) ≤ max (0 : Int) 4) :=
  ⟨(C4_draw_line_exact 0 0 4 1).1, (C4_draw_line_exact 0 0 4 1).2.1,
    (C4_draw_line_exact 0 0 4 1).2.2.1,
    ((C4_draw_line_exact 0 0 4 1).2.2.2.1 (by decide)).1,
    ((C4_draw_line_exact 0 0 4 1).2.2.2.1 (by decide)).2 2⟩

/-- C5 counterexample: the width-1 lines from (0,0) to (4,1) and from
(4,1) to (0,0) write different pixel sets: column 2 carries row 0 one way
and row 1 the other; observably, drawing on the concrete surface leaves
pixel (2, 0) colored after the forward call but untouched after the
backward call. -/
theorem C5_symmetry_counterexample :
    ((2, 0) ∈ draw_line_width_points 1 0 0 4 1 ∧
      (2, 0) ∉ draw_line_width_points 1 4 1 0 0) ∧
    (line_prim demoSurf 1 0 0 4 1 1).1.pixels 2 0 = 1 ∧
    (line_prim demoSurf 1 4 1 0 0 1).1.pixels 2 0 = 0 :=
  ⟨⟨by decide, by decide⟩, by decide, by decide⟩

/-- C5 (amended): width-1 line(A,B) and line(B,A) both write both
endpoints and cover exactly the same set of major-axis coordinates; for
horizontal, vertical, single-point and perfectly diagonal lines the two
pixel sets coincide; in general the pixel sets may differ. -/
theorem C5_line_symmetry :
    ∀ x1 y1 x2 y2 : Int,
      ((x1, y1) ∈ draw_line_width_points 1 x1 y1 x2 y2 ∧
        (x2, y2) ∈ draw_line_width_points 1 x1 y1 x2 y2 ∧
        (x1, y1) ∈ draw_line_width_points 1 x2 y2 x1 y1 ∧
        (x2, y2) ∈ draw_line_width_points 1 x2 y2 x1 y1) ∧
      ((y2 - y1).natAbs ≤ (x2 - x1).natAbs →
        ∀ cc : Int, cc ∈ (draw_line_width_points 1 x1 y1 x2 y2).map Prod.fst ↔
          cc ∈ (draw_line_width_points 1 x2 y2 x1 y1).map Prod.fst) ∧
      ((x2 - x1).natAbs ≤ (y2 - y1).natAbs →
        ∀ rr : Int, rr ∈ (draw_line_width_points 1 x1 y1 x2 y2).map Prod.snd ↔
          rr ∈ (draw_line_width_points 1 x2 y2 x1 y1).map Prod.snd) ∧
      (y1 = y2 ∨ x1 = x2 ∨ (x2 - x1).natAbs = (y2 - y1).natAbs →
        ∀ p : Int × Int, p ∈ draw_line_width_points 1 x1 y1 x2 y2 ↔
          p ∈ draw_line_width_points 1 x2 y2 x1 y1) := by
  intro x1 y1 x2 y2
  simp only [dlw_one]
  have hAB := draw_line_char x1 y1 x2 y2
  have hBA := draw_line_char x2 y2 x1 y1
  refine ⟨⟨hAB.1, hAB.2.1, hBA.2.1, hBA.1⟩, ?_, ?_, ?_⟩
  · intro hmaj cc
    rw [((hAB.2.2.2.1 hmaj).2 cc),
      ((hBA.2.2.2.1 (by omega)).2 cc)]
    omega
  · intro hmaj rr
    rw [((hAB.2.2.2.2 hmaj).2 rr),
      ((hBA.2.2.2.2 (by omega)).2 rr)]
    omega
  · intro hsp p
    by_cases hyy : y1 = y2
    · subst hyy
      by_cases hxx : x1 = x2
      · subst hxx
        exact Iff.rfl
      · have hs1 : (if x1 < x2 then (1 : Int) else -1) = 1 ∨
            (if x1 < x2 then (1 : Int) else -1) = -1 := by
          split
          · exact Or.inl rfl
          · exact Or.inr rfl
        have hs2 : (if x2 < x1 then (1 : Int) else -1) = 1 ∨
            (if x2 < x1 then (1 : Int) else -1) = -1 := by
          split
          · exact Or.inl rfl
          · exact Or.inr rfl
        rw [draw_line_points_horiz x1 y1 x2 hxx,
          draw_line_points_horiz x2 y1 x1 (Ne.symm hxx),
          mem_horiz_char x1 y1 _ _ hs1 p, mem_horiz_char x2 y1 _ _ hs2 p]
        have he1 : x1 + (if x1 < x2 then (1 : Int) else -1) * (((x1 - x2).natAbs : Nat) : Int)
            = x2 := by
          split <;> omega
        have he2 : x2 + (if x2 < x1 then (1 : Int) else -1) * (((x2 - x1).natAbs : Nat) : Int)
            = x1 := by
          split <;> omega
        rw [he1, he2]
        constructor
        · rintro ⟨h1, h2, h3⟩
          exact ⟨h1, by omega, by omega⟩
        · rintro ⟨h1, h2, h3⟩
          exact ⟨h1, by omega, by omega⟩
    · by_cases hxx : x1 = x2
      · subst hxx
        have hs1 : (if y1 < y2 then (1 : Int) else -1) = 1 ∨
            (if y1 < y2 then (1 : Int) else -1) = -1 := by
          split
          · exact Or.inl rfl
          · exact Or.inr rfl
        have hs2 : (if y2 < y1 then (1 : Int) else -1) = 1 ∨
            (if y2 < y1 then (1 : Int) else -1) = -1 := by
          split
          · exact Or.inl rfl
          · exact Or.inr rfl
        rw [draw_line_points_vert x1 y1 y2 hyy,
          draw_line_points_vert x1 y2 y1 (Ne.symm hyy),
          mem_vert_char x1 y1 _ _ hs1 p, mem_vert_char x1 y2 _ _ hs2 p]
        have he1 : y1 + (if y1 < y2 then (1 : Int) else -1) * (((y1 - y2).natAbs : Nat) : Int)
            = y2 := by
          split <;> omega
        have he2 : y2 + (if y2 < y1 then (1 : Int) else -1) * (((y2 - y1).natAbs : Nat) : Int)
            = y1 := by
          split <;> omega
        rw [he1, he2]
        constructor
        · rintro ⟨h1, h2, h3⟩
          exact ⟨h1, by omega, by omega⟩
        · rintro ⟨h1, h2, h3⟩
          exact ⟨h1, by omega, by omega⟩
      · have heqn : (x2 - x1).natAbs = (y2 - y1).natAbs := by
          rcases hsp with h | h | h
          · exact absurd h hyy
          · exact absurd h hxx
          · exact h
        rw [draw_line_points_diag x1 y1 x2 y2 hxx hyy (by omega),
          draw_line_points_diag x2 y2 x1 y1 (Ne.symm hxx) (Ne.symm hyy) (by omega),
          mem_diag_char, mem_diag_char]
        have hgx : ∀ m : Int, x1 + (if x1 < x2 then (1 : Int) else -1) * m =
            x2 + (if x2 < x1 then (1 : Int) else -1) * (((y2 - y1).natAbs : Int) - m) := by
          intro m
          have : (((y2 - y1).natAbs : Nat) : Int) = ((x2 - x1).natAbs : Int) := by omega
          rw [this]
          split <;> split <;> omega
        have hgy : ∀ m : Int, y1 + (if y1 < y2 then (1 : Int) else -1) * m =
            y2 + (if y2 < y1 then (1 : Int) else -1) * (((y1 - y2).natAbs : Int) - m) := by
          intro m
          split <;> split <;> omega
        constructor
        · rintro ⟨t, ht, h1, h2⟩
          refine ⟨(y1 - y2).natAbs - t, by omega, ?_, ?_⟩
          · rw [h1, hgx (t : Int)]
            congr 1
            congr 1
            omega
          · rw [h2, hgy (t : Int)]
            congr 1
            congr 1
            omega
        · rintro ⟨t, ht, h1, h2⟩
          refine ⟨(y2 - y1).natAbs - t, by omega, ?_, ?_⟩
          · rw [h1]
            rw [hgx (((y2 - y1).natAbs - t : Nat) : Int)]
            congr 1
            congr 1
            omega
          · rw [h2]
            rw [hgy (((y2 - y1).natAbs - t : Nat) : Int)]
            congr 1
            congr 1
            omega

/-- Witness for C5: the implications instantiated on the line from (0, 0)
to (4, 1) and the diagonal from (1, 1) to (3, 3). -/
theorem C5_line_symmetry_witness :
    (∀ cc : Int, cc ∈ (draw_line_width_points 1 0 0 4 1).map Prod.fst ↔
      cc ∈ (draw_line_width_points 1 4 1 0 0).map Prod.fst) ∧
    (∀ p : Int × Int, p ∈ draw_line_width_points 1 1 1 3 3 ↔
      p ∈ draw_line_width_points 1 3 3 1 1) :=
  ⟨(C5_line_symmetry 0 0 4 1).2.1 (by decide),
    (C5_line_symmetry 1 1 3 3).2.2.2 (by decide)⟩


/-! ## C6: the circle outline and filled-circle ring agreement -/

theorem mem_spanPairs (c1 c2 a : Int) (n : Nat) (p : Int × Int) :
    p ∈ spanPairs c1 c2 a n ↔
      ∃ t : Nat, t < n ∧ (p = (c1, a + (t : Int)) ∨ p = (c2, a + (t : Int))) := by
  unfold spanPairs
  rw [List.mem_flatMap]
  constructor
  · rintro ⟨t, ht, hp⟩
    rw [List.mem_range] at ht
    simp only [List.mem_cons, List.mem_singleton, List.not_mem_nil, or_false] at hp
    exact ⟨t, ht, hp⟩
  · rintro ⟨t, ht, hp⟩
    refine ⟨t, List.mem_range.2 ht, ?_⟩
    simp only [List.mem_cons, List.mem_singleton]
    tauto

theorem mem_octantPixels (x0 y0 x y1 : Int) (p : Int × Int) :
    p ∈ octantPixels x0 y0 x y1 ↔
      ((y0 + y1 - 1 ≥ y0 + x - 1) ∧
        (p = (x0 + x - 1, y0 + y1 - 1) ∨ p = (x0 - x, y0 + y1 - 1))) ∨
      ((y0 - y1 ≤ y0 - x) ∧
        (p = (x0 + x - 1, y0 - y1) ∨ p = (x0 - x, y0 - y1))) ∨
      ((x0 + y1 - 1 ≥ x0 + x - 1) ∧
        (p = (x0 + y1 - 1, y0 + x - 1) ∨ p = (x0 + y1 - 1, y0 - x))) ∨
      ((x0 - y1 ≤ x0 - x) ∧
        (p = (x0 - y1, y0 + x - 1) ∨ p = (x0 - y1, y0 - x))) := by
  unfold octantPixels
  simp only [List.mem_append]
  constructor
  · rintro (((h | h) | h) | h)
    · split at h
      · simp only [List.mem_cons, List.mem_singleton, List.not_mem_nil, or_false] at h
        exact Or.inl ⟨by assumption, h⟩
      · exact absurd h (List.not_mem_nil p)
    · split at h
      · simp only [List.mem_cons, List.mem_singleton, List.not_mem_nil, or_false] at h
        exact Or.inr (Or.inl ⟨by assumption, h⟩)
      · exact absurd h (List.not_mem_nil p)
    · split at h
      · simp only [List.mem_cons, List.mem_singleton, List.not_mem_nil, or_false] at h
        exact Or.inr (Or.inr (Or.inl ⟨by assumption, h⟩))
      · exact absurd h (List.not_mem_nil p)
    · split at h
      · simp only [List.mem_cons, List.mem_singleton, List.not_mem_nil, or_false] at h
        exact Or.inr (Or.inr (Or.inr ⟨by assumption, h⟩))
      · exact absurd h (List.not_mem_nil p)
  · rintro (⟨hg, hp⟩ | ⟨hg, hp⟩ | ⟨hg, hp⟩ | ⟨hg, hp⟩)
    · refine Or.inl (Or.inl (Or.inl ?_))
      rw [if_pos hg]
      simp only [List.mem_cons, List.mem_singleton]
      tauto
    · refine Or.inl (Or.inl (Or.inr ?_))
      rw [if_pos hg]
      simp only [List.mem_cons, List.mem_singleton]
      tauto
    · refine Or.inl (Or.inr ?_)
      rw [if_pos hg]
      simp only [List.mem_cons, List.mem_singleton]
      tauto
    · refine Or.inr ?_
      rw [if_pos hg]
      simp only [List.mem_cons, List.mem_singleton]
      tauto

theorem octant_subset_spans (x0 y0 x y : Int) (hx : 1 ≤ x) (p : Int × Int)
    (hp : p ∈ octantPixels x0 y0 x y) :
    p ∈ spanPairs (x0 + y - 1) (x0 - y) (y0 - x) (2 * x).toNat ++
      spanPairs (x0 + x - 1) (x0 - x) (y0 - y) (2 * y).toNat := by
  rw [List.mem_append, mem_spanPairs, mem_spanPairs]
  rw [mem_octantPixels] at hp
  rcases hp with ⟨hg, hp | hp⟩ | ⟨hg, hp | hp⟩ | ⟨hg, hp | hp⟩ | ⟨hg, hp | hp⟩
  · exact Or.inr ⟨(2 * y - 1).toNat, by omega,
      Or.inl (by rw [hp, Prod.ext_iff]; constructor <;> simp <;> omega)⟩
  · exact Or.inr ⟨(2 * y - 1).toNat, by omega,
      Or.inr (by rw [hp, Prod.ext_iff]; constructor <;> simp <;> omega)⟩
  · exact Or.inr ⟨0, by omega,
      Or.inl (by rw [hp, Prod.ext_iff]; constructor <;> simp <;> omega)⟩
  · exact Or.inr ⟨0, by omega,
      Or.inr (by rw [hp, Prod.ext_iff]; constructor <;> simp <;> omega)⟩
  · exact Or.inl ⟨(2 * x - 1).toNat, by omega,
      Or.inl (by rw [hp, Prod.ext_iff]; constructor <;> simp <;> omega)⟩
  · exact Or.inl ⟨0, by omega,
      Or.inl (by rw [hp, Prod.ext_iff]; constructor <;> simp <;> omega)⟩
  · exact Or.inl ⟨(2 * x - 1).toNat, by omega,
      Or.inr (by rw [hp, Prod.ext_iff]; constructor <;> simp <;> omega)⟩
  · exact Or.inl ⟨0, by omega,
      Or.inr (by rw [hp, Prod.ext_iff]; constructor <;> simp <;> omega)⟩

theorem circleFilledLoop_step (x0 y0 : Int) (n : Nat) (f ddx ddy x y : Int) :
    circleFilledLoop x0 y0 (n + 1) ⟨f, ddx, ddy, x, y⟩ =
      if x < y then
        spanPairs (x0 + (if f ≥ 0 then y - 1 else y) - 1)
            (x0 - (if f ≥ 0 then y - 1 else y))
            (y0 - (x + 1)) (2 * (x + 1)).toNat ++
          spanPairs (x0 + (x + 1) - 1) (x0 - (x + 1))
            (y0 - (if f ≥ 0 then y - 1 else y))
            (2 * (if f ≥ 0 then y - 1 else y)).toNat ++
          circleFilledLoop x0 y0 n
            ⟨(if f ≥ 0 then f + (ddy + 2) else f) + (ddx + 2) + 1,
              ddx + 2,
              if f ≥ 0 then ddy + 2 else ddy,
              x + 1,
              if f ≥ 0 then y - 1 else y⟩
      else [] := rfl

theorem circleBresLoop_step (x0 y0 : Int) (n : Nat)
    (f ddx ddy x y jf jdx jdy jy th : Int) :
    circleBresLoop x0 y0 (n + 1) ⟨f, ddx, ddy, x, y, jf, jdx, jdy, jy, th⟩ =
      if x < y then
        ((List.range (if th > 1
              then (if f ≥ 0 then y - 1 else y) - (if jf ≥ 0 then jy - 1 else jy)
              else th).toNat).flatMap
          (fun i : Nat => octantPixels x0 y0 (x + 1)
            ((if f ≥ 0 then y - 1 else y) - (i : Int)))) ++
        circleBresLoop x0 y0 n
          ⟨(if f ≥ 0 then f + (ddy + 2) else f) + (ddx + 2) + 1,
            ddx + 2,
            if f ≥ 0 then ddy + 2 else ddy,
            x + 1,
            if f ≥ 0 then y - 1 else y,
            (if jf ≥ 0 then jf + (jdy + 2) else jf) + (jdx + 2) + 1,
            jdx + 2,
            if jf ≥ 0 then jdy + 2 else jdy,
            if jf ≥ 0 then jy - 1 else jy,
            if th > 1
              then (if f ≥ 0 then y - 1 else y) - (if jf ≥ 0 then jy - 1 else jy)
              else th⟩
      else [] := rfl

theorem ring_subset_filled_loop (x0 y0 : Int) :
    ∀ (fuel : Nat) (f ddx ddy x y jf jdx jdy jy : Int), 0 ≤ x →
      ∀ p ∈ circleBresLoop x0 y0 fuel ⟨f, ddx, ddy, x, y, jf, jdx, jdy, jy, 1⟩,
        p ∈ circleFilledLoop x0 y0 fuel ⟨f, ddx, ddy, x, y⟩ := by
  intro fuel
  induction fuel with
  | zero =>
    intro f ddx ddy x y jf jdx jdy jy hx p hp
    exact absurd hp (List.not_mem_nil p)
  | succ n ih =>
    intro f ddx ddy x y jf jdx jdy jy hx p hp
    by_cases hxy : x < y
    · rw [circleBresLoop_step, if_pos hxy,
        if_neg (show ¬((1 : Int) > 1) by norm_num)] at hp
      simp only [Int.toNat_one, show List.range 1 = [0] from rfl, List.flatMap_cons,
        List.flatMap_nil, List.append_nil, Nat.cast_zero, sub_zero] at hp
      rw [circleFilledLoop_step, if_pos hxy]
      rcases List.mem_append.1 hp with h | h
      · have hs := octant_subset_spans x0 y0 (x + 1) (if f ≥ 0 then y - 1 else y)
          (by omega) p h
        rcases List.mem_append.1 hs with h2 | h2
        · exact List.mem_append_left _ (List.mem_append_left _ h2)
        · exact List.mem_append_left _ (List.mem_append_right _ h2)
      · exact List.mem_append_right _ (ih _ _ _ _ _ _ _ _ _ (by omega) p h)
    · rw [circleBresLoop_step, if_neg hxy] at hp
      exact absurd hp (List.not_mem_nil p)

theorem ring_subset_filled (x0 y0 r : Int) (p : Int × Int)
    (hp : p ∈ draw_circle_bresenham_points x0 y0 r 1) :
    p ∈ draw_circle_filled_points x0 y0 r := by
  unfold draw_circle_bresenham_points at hp
  unfold draw_circle_filled_points
  exact ring_subset_filled_loop x0 y0 (r.toNat + 1) _ _ _ _ _ _ _ _ _ le_rfl p hp

theorem ring_subset_bres_loop (x0 y0 r ri : Int) (hri : 1 ≤ ri) (hrir : ri ≤ r - 1) :
    ∀ (fuel : Nat) (f ddx ddy x y jf jdx jdy jy kf kdx kdy ky th : Int),
      0 ≤ x → y ≤ r →
      f = x * x + y * y - r * r + 2 * x - y + 1 →
      ddx = 2 * x → ddy = -2 * y →
      kf = x * x + ky * ky - ri * ri + 2 * x - ky + 1 →
      kdx = 2 * x → kdy = -2 * ky →
      1 ≤ y - ky → 1 ≤ th →
      ∀ p ∈ circleBresLoop x0 y0 fuel ⟨f, ddx, ddy, x, y, jf, jdx, jdy, jy, 1⟩,
        p ∈ circleBresLoop x0 y0 fuel ⟨f, ddx, ddy, x, y, kf, kdx, kdy, ky, th⟩ := by
  intro fuel
  induction fuel with
  | zero =>
    intro f ddx ddy x y jf jdx jdy jy kf kdx kdy ky th
    intro hx hyr Hf Hdx Hdy Hkf Hkdx Hkdy I3 I4 p hp
    exact absurd hp (List.not_mem_nil p)
  | succ n ih =>
    intro f ddx ddy x y jf jdx jdy jy kf kdx kdy ky th
    intro hx hyr Hf Hdx Hdy Hkf Hkdx Hkdy I3 I4 p hp
    by_cases hxy : x < y
    · rw [circleBresLoop_step, if_pos hxy,
        if_neg (show ¬((1 : Int) > 1) by norm_num)] at hp
      simp only [Int.toNat_one, show List.range 1 = [0] from rfl, List.flatMap_cons,
        List.flatMap_nil, List.append_nil, Nat.cast_zero, sub_zero] at hp
      rw [circleBresLoop_step, if_pos hxy]
      set Y := if f ≥ 0 then y - 1 else y with hY
      set KY := if kf ≥ 0 then ky - 1 else ky with hKY
      set F := (if f ≥ 0 then f + (ddy + 2) else f) + (ddx + 2) + 1 with hF
      set DY := if f ≥ 0 then ddy + 2 else ddy with hDY
      set KF := (if kf ≥ 0 then kf + (kdy + 2) else kf) + (kdx + 2) + 1 with hKF
      set KDY := if kf ≥ 0 then kdy + 2 else kdy with hKDY
      set TH := if th > 1 then Y - KY else th with hTH
      have hyk : 1 ≤ Y - KY := by
        rw [hY, hKY]
        split_ifs with h1 h2 h2
        · omega
        · rcases le_or_lt 2 (y - ky) with hc | hc
          · omega
          · exfalso
            apply h2
            have hky : ky = y - 1 := by omega
            have hsq : ri * ri ≤ (r - 1) * (r - 1) :=
              mul_le_mul hrir hrir (by omega) (by omega)
            rw [Hkf, hky]
            rw [Hf] at h1
            nlinarith [h1, hsq]
        · omega
        · omega
      have hcnt : 1 ≤ TH := by
        rw [hTH]
        split_ifs with h1
        · exact hyk
        · exact I4
      have hx1 : (0 : Int) ≤ x + 1 := by omega
      have hY_le : Y ≤ r := by
        rw [hY]; split_ifs <;> omega
      have hF_eq : F = (x + 1) * (x + 1) + Y * Y - r * r + 2 * (x + 1) - Y + 1 := by
        rw [hF, hY]
        split_ifs with h1 <;> simp only [Hf, Hdx, Hdy] <;> ring
      have hDX_eq : ddx + 2 = 2 * (x + 1) := by omega
      have hDY_eq : DY = -2 * Y := by
        rw [hDY, hY]
        split_ifs with h1 <;> simp only [Hdy] <;> ring
      have hKF_eq : KF = (x + 1) * (x + 1) + KY * KY - ri * ri + 2 * (x + 1) - KY + 1 := by
        rw [hKF, hKY]
        split_ifs with h1 <;> simp only [Hkf, Hkdx, Hkdy] <;> ring
      have hKDX_eq : kdx + 2 = 2 * (x + 1) := by omega
      have hKDY_eq : KDY = -2 * KY := by
        rw [hKDY, hKY]
        split_ifs with h1 <;> simp only [Hkdy] <;> ring
      rcases List.mem_append.1 hp with h | h
      · refine List.mem_append_left _ (List.mem_flatMap.2 ⟨0, List.mem_range.2 ?_, ?_⟩)
        · omega
        · simpa using h
      · exact List.mem_append_right _
          (ih _ _ _ _ _ _ _ _ _ _ _ _ _ _ hx1 hY_le hF_eq hDX_eq hDY_eq
            hKF_eq hKDX_eq hKDY_eq hyk hcnt p h)
    · rw [circleBresLoop_step, if_neg hxy] at hp
      exact absurd hp (List.not_mem_nil p)

theorem ring_subset_bres (x0 y0 r w : Int) (hw1 : 1 ≤ w) (hwr : w ≤ r - 1) (p : Int × Int)
    (hp : p ∈ draw_circle_bresenham_points x0 y0 r 1) :
    p ∈ draw_circle_bresenham_points x0 y0 r w := by
  unfold draw_circle_bresenham_points at hp ⊢
  exact ring_subset_bres_loop x0 y0 r (r - w) (by omega) (by omega) (r.toNat + 1)
    (1 - r) 0 (-2 * r) 0 r (1 - (r - 1)) 0 (-2 * (r - 1)) (r - 1)
    (1 - (r - w)) 0 (-2 * (r - w)) (r - w) w
    le_rfl le_rfl (by ring) (by ring) (by ring) (by ring) (by ring) (by ring)
    (by omega) hw1 p hp

theorem circle_dispatch_zero_eq_full (x0 y0 r : Int) (hr : 1 ≤ r) :
    circle_dispatch_points x0 y0 r 0 = circle_dispatch_points x0 y0 r r := by
  unfold circle_dispatch_points
  rw [if_neg (show ¬((0 : Int) > r) by omega), if_neg (show ¬(r > r) by omega),
    if_pos (Or.inl rfl : (0 : Int) = 0 ∨ (0 : Int) = r),
    if_pos (Or.inr rfl : r = 0 ∨ r = r)]

/-- C6: for every center and radius r ≥ 1, every pixel of the outermost ring
(the width-1 Bresenham outline emissions, the pixels at Bresenham distance r
from the center) is written by the filled circle and by the dispatched circle
at every width 1 ≤ w ≤ r; and the dispatched pixel sequences at width 0 and
at width r coincide. -/
theorem C6_circle_ring_agreement (x0 y0 r w : Int)
    (hr : 1 ≤ r) (hw : 1 ≤ w) (hwr : w ≤ r) :
    (∀ p ∈ draw_circle_bresenham_points x0 y0 r 1,
        p ∈ draw_circle_filled_points x0 y0 r ∧
        p ∈ circle_dispatch_points x0 y0 r w) ∧
    circle_dispatch_points x0 y0 r 0 = circle_dispatch_points x0 y0 r r := by
  refine ⟨fun p hp => ⟨ring_subset_filled x0 y0 r p hp, ?_⟩,
    circle_dispatch_zero_eq_full x0 y0 r hr⟩
  unfold circle_dispatch_points
  rw [if_neg (show ¬(w > r) by omega)]
  by_cases hcase : w = 0 ∨ w = r
  · rw [if_pos hcase]
    exact ring_subset_filled x0 y0 r p hp
  · rw [if_neg hcase]
    exact ring_subset_bres x0 y0 r w hw (by omega) p hp

theorem C6_circle_ring_agreement_witness :
    ((0 : Int), (2 : Int)) ∈ draw_circle_filled_points 0 0 3 ∧
    ((0 : Int), (2 : Int)) ∈ circle_dispatch_points 0 0 3 2 ∧
    circle_dispatch_points 0 0 3 0 = circle_dispatch_points 0 0 3 3 :=
  have h := C6_circle_ring_agreement 0 0 3 2 (by decide) (by decide) (by decide)
  ⟨(h.1 (0, 2) (by decide)).1, (h.1 (0, 2) (by decide)).2, h.2⟩

end DrawC
